import Mathlib

/-!
Verification development for the BlueTopo incremental fetch/build tracker
(`nbs/bluetopo/fetch_tiles.py` and `nbs/bluetopo/build_vrt.py`).

The SQLite registry is modelled relationally: each table is a list of rows,
one structure field per column.  Text columns are `Option String` (NULL is
`none`); the key columns (`tilename`, `region`, `utm`) are plain `String`,
since every row the program creates carries a concrete key value.  The
filesystem is the set of relative paths `p` for which
`os.path.isfile(os.path.join(project_dir, p))` holds, modelled as a
`List String`.  SQL `UPDATE ... WHERE key = ?` is a map over the row list
guarded by key equality; `INSERT ... ON CONFLICT(key) DO UPDATE` updates the
matching rows when one exists and appends a fresh row otherwise.
-/

deriving instance DecidableEq for Except

namespace BlueTopo

/-- Row of the `vrt_subregion` table (see `connect_to_survey_registry`). -/
structure SubregionRow where
  region : String
  utm : String
  res_2_vrt : Option String
  res_2_ovr : Option String
  res_4_vrt : Option String
  res_4_ovr : Option String
  res_8_vrt : Option String
  res_8_ovr : Option String
  complete_vrt : Option String
  complete_ovr : Option String
  built : Int
deriving DecidableEq, Repr

/-- Row of the `vrt_utm` table. -/
structure UtmRow where
  utm : String
  utm_vrt : Option String
  utm_ovr : Option String
  built : Int
deriving DecidableEq, Repr

/-- Row of the `tiles` table. -/
structure TileRow where
  tilename : String
  geotiff_link : Option String
  rat_link : Option String
  delivered_date : Option String
  resolution : Option String
  utm : Option String
  subregion : Option String
  geotiff_disk : Option String
  rat_disk : Option String
  geotiff_sha256_checksum : Option String
  rat_sha256_checksum : Option String
  geotiff_verified : Option String
  rat_verified : Option String
deriving DecidableEq, Repr

/-- The registry: the three dependency-graph tables of the SQLite database. -/
structure Registry where
  tiles : List TileRow
  subregions : List SubregionRow
  utms : List UtmRow
deriving DecidableEq, Repr

/-- Set of relative paths that exist on disk under the project directory. -/
abbrev FileSystem := List String

/-- Model of `os.path.isfile(os.path.join(project_dir, p))`. -/
def isfile (fs : FileSystem) (p : String) : Bool :=
  fs.contains p

/-- Check used for the six `res_*` descriptors in `missing_subregions`:
`s[f] and not os.path.isfile(...)` — a null descriptor is not missing. -/
def fileMissingOpt (fs : FileSystem) : Option String → Bool
  | none => false
  | some p => !(isfile fs p)

/-- Check used for `complete_vrt`/`complete_ovr` (and both `vrt_utm`
descriptors): `s[f] is None or not os.path.isfile(...)`. -/
def fileMissingReq (fs : FileSystem) : Option String → Bool
  | none => true
  | some p => !(isfile fs p)

/-- The big disjunction in `missing_subregions` deciding that a built
subregion has a missing artifact. -/
def subregionFilesMissing (fs : FileSystem) (s : SubregionRow) : Bool :=
  fileMissingOpt fs s.res_2_vrt || fileMissingOpt fs s.res_2_ovr ||
  fileMissingOpt fs s.res_4_vrt || fileMissingOpt fs s.res_4_ovr ||
  fileMissingOpt fs s.res_8_vrt || fileMissingOpt fs s.res_8_ovr ||
  fileMissingReq fs s.complete_vrt || fileMissingReq fs s.complete_ovr

/-- The disjunction in `missing_utms` deciding that a built UTM zone has a
missing artifact. -/
def utmFilesMissing (fs : FileSystem) (u : UtmRow) : Bool :=
  fileMissingReq fs u.utm_vrt || fileMissingReq fs u.utm_ovr

/-- Effect of the `UPDATE vrt_subregion SET ... built = 0 WHERE region = ?`
statement of `missing_subregions` on one row. -/
def resetSubregionRow (s : SubregionRow) : SubregionRow :=
  { s with
    res_2_vrt := none, res_2_ovr := none,
    res_4_vrt := none, res_4_ovr := none,
    res_8_vrt := none, res_8_ovr := none,
    complete_vrt := none, complete_ovr := none, built := 0 }

/-- Effect of the `UPDATE vrt_utm SET ... built = 0 WHERE utm = ?`
statement on one row. -/
def resetUtmRow (u : UtmRow) : UtmRow :=
  { u with utm_vrt := none, utm_ovr := none, built := 0 }

/-- The keyed subregion UPDATE applied to the whole table. -/
def invalidateSubregion (subs : List SubregionRow) (region : String) :
    List SubregionRow :=
  subs.map fun r => if r.region = region then resetSubregionRow r else r

/-- The keyed UTM UPDATE applied to the whole table. -/
def invalidateUtm (us : List UtmRow) (utm : String) : List UtmRow :=
  us.map fun u => if u.utm = utm then resetUtmRow u else u

/-- Loop body of `missing_subregions`: one snapshot row `s`; when its files
are missing, null the subregion keyed by `s.region`, null the owning UTM zone
keyed by `s.utm`, and count it. -/
def missingSubregionsStep (fs : FileSystem) (acc : Registry × Nat)
    (s : SubregionRow) : Registry × Nat :=
  if subregionFilesMissing fs s then
    ({ acc.1 with
        subregions := invalidateSubregion acc.1.subregions s.region,
        utms := invalidateUtm acc.1.utms s.utm },
      acc.2 + 1)
  else acc

/-- `missing_subregions(project_dir, conn)` of `build_vrt.py`: iterate over a
snapshot of the rows with `built = 1`, invalidating those with missing files
and cascading to their UTM zone. -/
def missing_subregions (fs : FileSystem) (st : Registry) : Registry × Nat :=
  (st.subregions.filter fun s => s.built == 1).foldl
    (missingSubregionsStep fs) (st, 0)

/-- Loop body of `missing_utms`. -/
def missingUtmsStep (fs : FileSystem) (acc : Registry × Nat) (u : UtmRow) :
    Registry × Nat :=
  if utmFilesMissing fs u then
    ({ acc.1 with utms := invalidateUtm acc.1.utms u.utm }, acc.2 + 1)
  else acc

/-- `missing_utms(project_dir, conn)` of `build_vrt.py`. -/
def missing_utms (fs : FileSystem) (st : Registry) : Registry × Nat :=
  (st.utms.filter fun u => u.built == 1).foldl (missingUtmsStep fs) (st, 0)

/-- The staleness sweep as run by `build_vrt.main`: `missing_subregions`
followed by `missing_utms`, returning the new registry and both counts. -/
def sweep (fs : FileSystem) (st : Registry) : Registry × Nat × Nat :=
  let r1 := missing_subregions fs st
  let r2 := missing_utms fs r1.1
  (r2.1, r1.2, r2.2)

/-!
Fetch engine (`fetch_tiles.py`).

A `DownloadTask` is one entry of `download_dict` together with the outcome of
the transfer attempted by the worker `pull`: whether the `try` block raised
(S3 calls, file reads, dictionary key misses), whether each destination file
exists afterwards, and the SHA-256 hex digest of each downloaded file.  The
digests of the files are data of the environment; comparing them with the
checksum columns recorded in the registry is done by the code under test.
-/

/-- One entry of `download_dict` plus the environment's transfer outcome. -/
structure DownloadTask where
  tile : String
  subregion : String
  utm : String
  geotiff_disk : Option String
  rat_disk : Option String
  geotiff_sha256_checksum : Option String
  rat_sha256_checksum : Option String
  raisesException : Bool
  geotiff_present : Bool
  rat_present : Bool
  geotiff_hash : String
  rat_hash : String
deriving DecidableEq, Repr

/-- Result dictionary returned by the worker `pull`. -/
structure PullResult where
  Tile : String
  Result : Bool
  Reason : String
deriving DecidableEq, Repr

/-- The worker `pull` of `download_tiles`: download both files, verify both
hashes against the recorded checksums, classify the outcome. -/
def pull (d : DownloadTask) : PullResult :=
  if d.raisesException then
    { Tile := d.tile, Result := false, Reason := "exception" }
  else if !d.geotiff_present || !d.rat_present then
    { Tile := d.tile, Result := false, Reason := "missing download" }
  else if d.geotiff_sha256_checksum ≠ some d.geotiff_hash ∨
      d.rat_sha256_checksum ≠ some d.rat_hash then
    { Tile := d.tile, Result := false, Reason := "incorrect hash" }
  else
    { Tile := d.tile, Result := true, Reason := "success" }

/-- The `UPDATE tiles SET geotiff_disk = ?, rat_disk = ?, geotiff_verified,
rat_verified WHERE tilename = ?` statement of `update_records`, one record. -/
def updateTilesArtifacts (tab : List TileRow) (d : DownloadTask) :
    List TileRow :=
  tab.map fun t =>
    if t.tilename = d.tile then
      { t with
        geotiff_disk := d.geotiff_disk, rat_disk := d.rat_disk,
        geotiff_verified := some "True", rat_verified := some "True" }
    else t

/-- The `INSERT INTO vrt_subregion ... ON CONFLICT(region) DO UPDATE`
statement of `update_records`, one record: all descriptor values are NULL and
`built` is 0, both on insert and on conflict. -/
def upsertSubregionRecord (tab : List SubregionRow) (region utm : String) :
    List SubregionRow :=
  if tab.any (fun r => r.region == region) then
    tab.map fun r =>
      if r.region = region then
        { r with
          utm := utm,
          res_2_vrt := none, res_2_ovr := none,
          res_4_vrt := none, res_4_ovr := none,
          res_8_vrt := none, res_8_ovr := none,
          complete_vrt := none, complete_ovr := none, built := 0 }
      else r
  else
    tab ++ [{ region := region, utm := utm,
              res_2_vrt := none, res_2_ovr := none,
              res_4_vrt := none, res_4_ovr := none,
              res_8_vrt := none, res_8_ovr := none,
              complete_vrt := none, complete_ovr := none, built := 0 }]

/-- The `INSERT INTO vrt_utm ... ON CONFLICT(utm) DO UPDATE` statement of
`update_records`, one record. -/
def upsertUtmRecord (tab : List UtmRow) (utm : String) : List UtmRow :=
  if tab.any (fun u => u.utm == utm) then
    tab.map fun u =>
      if u.utm = utm then
        { u with utm_vrt := none, utm_ovr := none, built := 0 }
      else u
  else
    tab ++ [{ utm := utm, utm_vrt := none, utm_ovr := none, built := 0 }]

/-- `update_records(conn, download_dict, successful_downloads)`: for every
dict entry whose tile is in the successful list, update the tiles row and
upsert the subregion and UTM rows, all in one transaction (the early return
when no record qualifies mirrors `if len(tiles_records) == 0: return`). -/
def update_records (st : Registry) (downloadList : List DownloadTask)
    (successful : List String) : Registry :=
  if (downloadList.filter fun d => successful.contains d.tile).isEmpty then st
  else
    { tiles := (downloadList.filter fun d => successful.contains d.tile).foldl
        updateTilesArtifacts st.tiles,
      subregions :=
        (downloadList.filter fun d => successful.contains d.tile).foldl
          (fun tab d => upsertSubregionRecord tab d.subregion d.utm)
          st.subregions,
      utms := (downloadList.filter fun d => successful.contains d.tile).foldl
        (fun tab d => upsertUtmRecord tab d.utm) st.utms }

/-- Tail of `download_tiles` past the worker pool: classify all results, then
commit the successful tiles to the registry with a single `update_records`
call.  Returns the new registry, the successful, failed, and
failed-verification tile lists. -/
def commitDownloads (st : Registry) (tasks : List DownloadTask) :
    Registry × List String × List String × List String :=
  let results := tasks.map pull
  let successful_downloads :=
    (results.filter fun r => r.Result == true).map (·.Tile)
  let failed_downloads :=
    (results.filter fun r => r.Result == false).map (·.Tile)
  let failed_verifications :=
    (results.filter fun r =>
      r.Result == false && r.Reason == "incorrect hash").map (·.Tile)
  let st1 :=
    if 0 < successful_downloads.length then
      update_records st tasks successful_downloads
    else st
  (st1, successful_downloads, failed_downloads, failed_verifications)

/-- Python truthiness of a nullable text field: `None` and the empty string
are falsy. -/
def truthy : Option String → Bool
  | none => false
  | some s => !s.isEmpty

/-- One feature of the tile scheme handed to `insert_new` (fields read from
the geopackage by `get_tile_list`). -/
structure SchemeTile where
  tile : String
  Delivered_Date : Option String
  GeoTIFF_Link : Option String
  RAT_Link : Option String
deriving DecidableEq, Repr

/-- A fresh `tiles` row as created by `INSERT INTO tiles(tilename)`. -/
def emptyTileRow (name : String) : TileRow :=
  { tilename := name,
    geotiff_link := none, rat_link := none, delivered_date := none,
    resolution := none, utm := none, subregion := none,
    geotiff_disk := none, rat_disk := none,
    geotiff_sha256_checksum := none, rat_sha256_checksum := none,
    geotiff_verified := none, rat_verified := none }

/-- `insert_new(conn, tiles)`: insert a tilename-only row for every input
tile whose `Delivered_Date`, `GeoTIFF_Link` and `RAT_Link` are truthy, with
`ON CONFLICT DO NOTHING`, and return the number of such input tiles. -/
def insert_new (tab : List TileRow) (tiles : List SchemeTile) :
    List TileRow × Nat :=
  let tile_list := tiles.filter fun t =>
    truthy t.Delivered_Date && truthy t.GeoTIFF_Link && truthy t.RAT_Link
  (tile_list.foldl
    (fun tab t =>
      if tab.any (fun r => r.tilename == t.tile) then tab
      else tab ++ [emptyTileRow t.tile])
    tab,
   tile_list.length)

/-!
`upsert_tiles(conn, project_dir, tile_scheme)`.

A `TsTile` is one feature of the downloaded tile scheme (its WKT geometry and
lower-cased fields).  The spatial join against the in-memory global tileset
(`lyr.SetSpatialFilter`; `lyr.GetFeatureCount`; `GetField("Region")`) is
modelled by a parameter `regionsOf : String → List String` giving, for a tile's
WKT geometry, the `Region` codes of the intersecting tileset features.
`os.remove` is modelled as removal from the path set; errors raised by the
code (`ValueError` on a duplicate tilename, `ValueError` when the subregion
feature count is not 1) abort the run via `Except.error`.
-/

/-- One feature of the downloaded tile scheme. -/
structure TsTile where
  tile : String
  wkt : String
  delivered_date : Option String
  geotiff_link : Option String
  rat_link : Option String
  resolution : Option String
  utm : Option String
  geotiff_sha256_checksum : Option String
  rat_sha256_checksum : Option String
deriving DecidableEq, Repr

/-- One tuple appended to `insert_tiles` by the loop of `upsert_tiles`. -/
structure InsertRec where
  tile : String
  geotiff_link : Option String
  rat_link : Option String
  delivered_date : Option String
  resolution : Option String
  utm : Option String
  region : String
  geotiff_sha256_checksum : Option String
  rat_sha256_checksum : Option String
deriving DecidableEq, Repr

/-- Delete a path from the filesystem (`os.remove`). -/
def removeFile (fs : FileSystem) (p : String) : FileSystem :=
  fs.filter fun q => decide (q ≠ p)

/-- `if db_tile[field] and os.path.isfile(join(project_dir, db_tile[field])):
os.remove(...)` — remove a recorded artifact when the field is truthy and
the file exists. -/
def removeIfPresent (fs : FileSystem) (o : Option String) : FileSystem :=
  match o with
  | none => fs
  | some p => if !p.isEmpty && isfile fs p then removeFile fs p else fs

/-- Python's `<` on strings, restricted to one code-point pair: compare by
code point. -/
def pyStrLtAux : List Char → List Char → Bool
  | _, [] => false
  | [], _ :: _ => true
  | x :: xs, y :: ys =>
    if x.toNat < y.toNat then true
    else if y.toNat < x.toNat then false
    else pyStrLtAux xs ys

/-- Python's `<` on strings: lexicographic by code point, a strict prefix is
smaller. -/
def pyStrLt (a b : String) : Bool :=
  pyStrLtAux a.data b.data

/-- The newer-delivery test of `upsert_tiles`:
`(db_tile["delivered_date"] is None) or (ts > db)` — Python compares the
date strings lexicographically by code point. -/
def newerDelivery (dbDate : Option String) (tsDate : String) : Bool :=
  match dbDate with
  | none => true
  | some d => pyStrLt d tsDate

/-- The insert tuple appended by the loop of `upsert_tiles` for a scheme
feature resolved to a region. -/
def mkInsertRec (ts : TsTile) (region : String) : InsertRec :=
  { tile := ts.tile, geotiff_link := ts.geotiff_link, rat_link := ts.rat_link,
    delivered_date := ts.delivered_date, resolution := ts.resolution,
    utm := ts.utm, region := region,
    geotiff_sha256_checksum := ts.geotiff_sha256_checksum,
    rat_sha256_checksum := ts.rat_sha256_checksum }

/-- Body of the `for db_tile in db_tiles` loop of `upsert_tiles` for one
database tile: find the scheme feature, check the delivery date, delete stale
artifacts, resolve the subregion, and produce the insert tuple (if any). -/
def processTile (regionsOf : String → List String) (fs : FileSystem)
    (db : TileRow) (tsTiles : List TsTile) :
    Except String (FileSystem × Option InsertRec) :=
  let cand := tsTiles.filter fun t => t.tile == db.tilename
  match cand with
  | [] => .ok (fs, none)
  | ts :: rest =>
    if rest.isEmpty then
      match ts.delivered_date with
      | none => .ok (fs, none)
      | some tsd =>
        if newerDelivery db.delivered_date tsd then
          let fs1 := removeIfPresent fs db.geotiff_disk
          let fs2 := removeIfPresent fs1 db.rat_disk
          let ms := regionsOf ts.wkt
          if ms.length == 1 then
            .ok (fs2, some (mkInsertRec ts (ms.headD "")))
          else .error "subregion feature count is not 1"
        else .ok (fs, none)
    else .error "more than one tilename found in tileset"

/-- The loop of `upsert_tiles` over the database tile snapshot, accumulating
the filesystem state and the list of insert tuples. -/
def collectInserts (regionsOf : String → List String) (fs : FileSystem)
    (dbs : List TileRow) (tsTiles : List TsTile) :
    Except String (FileSystem × List InsertRec) :=
  match dbs with
  | [] => .ok (fs, [])
  | db :: rest =>
    match processTile regionsOf fs db tsTiles with
    | .error e => .error e
    | .ok (fs1, orec) =>
      match collectInserts regionsOf fs1 rest tsTiles with
      | .error e => .error e
      | .ok (fs2, recs) => .ok (fs2, orec.toList ++ recs)

/-- The row an insert tuple produces: fresh delivery fields, checksum columns
set to the scheme's new checksums, and `geotiff_verified`, `rat_verified`,
`geotiff_disk`, `rat_disk` NULL. -/
def tileRowFromRec (rec : InsertRec) : TileRow :=
  { tilename := rec.tile,
    geotiff_link := rec.geotiff_link, rat_link := rec.rat_link,
    delivered_date := rec.delivered_date,
    resolution := rec.resolution, utm := rec.utm,
    subregion := some rec.region,
    geotiff_disk := none, rat_disk := none,
    geotiff_sha256_checksum := rec.geotiff_sha256_checksum,
    rat_sha256_checksum := rec.rat_sha256_checksum,
    geotiff_verified := none, rat_verified := none }

/-- The `INSERT INTO tiles ... ON CONFLICT(tilename) DO UPDATE` statement of
`upsert_tiles`, one tuple: on conflict every delivery field is overwritten,
the checksum columns receive the scheme's new checksums, and the
`geotiff_verified`, `rat_verified`, `geotiff_disk`, `rat_disk` columns are
set to NULL. -/
def upsertTileRowRec (tab : List TileRow) (rec : InsertRec) : List TileRow :=
  if tab.any (fun t => t.tilename == rec.tile) then
    tab.map fun t =>
      if t.tilename = rec.tile then
        { tileRowFromRec rec with tilename := t.tilename }
      else t
  else
    tab ++ [tileRowFromRec rec]

/-- `upsert_tiles`: run the loop over all database tiles, then apply the
batched tiles upsert.  The `vrt_subregion` and `vrt_utm` tables are never
touched here. -/
def upsert_tiles (regionsOf : String → List String) (st : Registry)
    (fs : FileSystem) (tsTiles : List TsTile) :
    Except String (Registry × FileSystem) :=
  match collectInserts regionsOf fs st.tiles tsTiles with
  | .error e => .error e
  | .ok (fs1, recs) =>
    .ok ({ st with tiles := recs.foldl upsertTileRowRec st.tiles }, fs1)

/-!
Tessellation generator (`convert_base` and `global_region_tileset`).

`global_region_tileset` is modelled at the arguments of its one call site,
`global_region_tileset(1, "1.2")`.  The loop coordinates are Python floats
re-rounded to one decimal digit after every step (`round(x + size, 1)`), so
every value taken by `x` and `y` is exactly a multiple of 0.1; coordinates
are therefore carried as integers in tenths of a degree (`-1800 ≤ x`,
step 12), which reproduces the float loop exactly for this cell size.  The
cell geometry (ring, inward buffer) is built by GDAL and not modelled; the
fields written to each feature — `Region`, `UTM_Zone`, `Hemisphere` — and
the grid counters are.
-/

/-- `convert_base`'s division loop, least-significant digit first:
`res += charset[input % len]; input //= len`.  (For a charset of fewer than
two symbols the source loop would not terminate; the guard keeps the model
total and is never exercised under the hypotheses used below.) -/
def digitsLE (cs : List Char) (n : Nat) : List Char :=
  if h : n = 0 ∨ cs.length < 2 then []
  else cs.getD (n % cs.length) ' ' :: digitsLE cs (n / cs.length)
termination_by n
decreasing_by
  push_neg at h
  exact Nat.div_lt_self (Nat.pos_of_ne_zero h.1) (by omega)

/-- `convert_base(charset, input, minimum)` of `fetch_tiles.py`:
`(res[::-1] or charset[0]).rjust(minimum, charset[0])`. -/
def convert_base (charset : String) (input : Nat) (minimum : Nat) : String :=
  let cs := charset.data
  let revDigits := (digitsLE cs input).reverse
  let base := if revDigits.isEmpty then [cs.getD 0 ' '] else revDigits
  ⟨List.replicate (minimum - base.length) (cs.getD 0 ' ') ++ base⟩

/-- The 20-symbol alphabet used for the tileset index. -/
def charset20 : String := "BCDFGHJKLMNPQRSTVWXZ"

/-- The 27-symbol alphabet used for the X and Y step counters. -/
def charset27 : String := "2456789BCDFGHJKLMNPQRSTVWXZ"

/-- Tileset name for index 1: `convert_base(charset, index, 2)`. -/
def tilesetName : String := convert_base charset20 1 2

/-- Exact value of `int(np.ceil((180 + x + 0.00000001) / 6))` where the
longitude is `xT` tenths of a degree. -/
def utmZoneVal (xT : Int) : Int :=
  ⌈(((180 : ℚ) + (xT : ℚ) / 10 + 1 / 100000000) / 6 : ℚ)⌉

/-- Python's `"{:02d}".format` on the UTM zone number. -/
def format02 (z : Int) : String :=
  let s := toString z
  if s.length < 2 then "0" ++ s else s

/-- One feature written by `global_region_tileset`: the west/north corner in
tenths of a degree, the two grid counters, and the three fields set on the
feature. -/
structure Cell where
  x : Int
  y : Int
  xCount : Nat
  yCount : Nat
  Region : String
  UTM_Zone : String
  Hemisphere : String
deriving DecidableEq, Repr

/-- The `Region` code of grid cell `(xc, yc)` for tileset index 1. -/
def regionCode (xc yc : Nat) : String :=
  tilesetName ++ convert_base charset27 xc 3 ++ convert_base charset27 yc 3

/-- The feature created for the cell whose west/north corner is
`(xT, yT)` tenths of a degree at grid counters `(xc, yc)`. -/
def mkCell (ns : String) (xT yT : Int) (xc yc : Nat) : Cell :=
  { x := xT, y := yT, xCount := xc, yCount := yc,
    Region := regionCode xc yc,
    UTM_Zone := format02 (utmZoneVal xT),
    Hemisphere := ns }

/-- The inner `while x < 180` loop of `global_region_tileset` for one
latitude row (coordinates in tenths, step 12 = 1.2 degrees). -/
def genRow (ns : String) (yT : Int) (yc : Nat) (xT : Int) (xc : Nat) :
    List Cell :=
  if _h : xT < 1800 then
    mkCell ns xT yT xc yc :: genRow ns yT yc (xT + 12) (xc + 1)
  else []
termination_by (1800 - xT).toNat
decreasing_by omega

/-- The outer `while y <= 90` loop: hemisphere is `"S"` whenever `y <= 0`,
and each row runs `x` from -180 with counter 0. -/
def genRows (yT : Int) (yc : Nat) : List Cell :=
  if _h : yT ≤ 900 then
    genRow (if yT ≤ 0 then "S" else "N") yT yc (-1800) 0 ++
      genRows (yT + 12) (yc + 1)
  else []
termination_by (901 - yT).toNat
decreasing_by omega

/-- `global_region_tileset(1, "1.2")`: all features of the in-memory global
tileset, starting at `y = round(-90 + 1.2, 1)`. -/
def global_region_tileset : List Cell :=
  genRows (-888) 0

/-- Index of the first occurrence of a character in a charset (decoding
helper; 0-based, returns the length if absent). -/
def charIdx : List Char → Char → Nat
  | [], _ => 0
  | a :: t, c => if a = c then 0 else charIdx t c + 1

/-- Value of a least-significant-first digit string over a charset. -/
def valLE (cs : List Char) : List Char → Nat
  | [] => 0
  | c :: rest => charIdx cs c + cs.length * valLE cs rest

/-- Value of a most-significant-first digit string over a charset. -/
def fromBE (cs : List Char) (l : List Char) : Nat :=
  l.foldl (fun acc c => acc * cs.length + charIdx cs c) 0

/-!
Concrete fixtures used by witnesses and counterexamples.
-/

/-- A built subregion row whose `complete_vrt` descriptor is NULL (hence
counted missing by the sweep). -/
def subC2 : SubregionRow :=
  { region := "BC222222", utm := "17",
    res_2_vrt := some "r2.vrt", res_2_ovr := some "r2.vrt.ovr",
    res_4_vrt := none, res_4_ovr := none,
    res_8_vrt := none, res_8_ovr := none,
    complete_vrt := none, complete_ovr := none, built := 1 }

/-- A built UTM row whose own combined files are present on disk. -/
def utmC2 : UtmRow :=
  { utm := "17", utm_vrt := some "utm17.vrt", utm_ovr := some "utm17.vrt.ovr",
    built := 1 }

/-- Filesystem for the cascade witness: the subregion's res-2 files and the
UTM zone's combined files all exist. -/
def fsC2 : FileSystem :=
  ["r2.vrt", "r2.vrt.ovr", "utm17.vrt", "utm17.vrt.ovr"]

/-- Registry for the cascade witness. -/
def stC2 : Registry :=
  { tiles := [], subregions := [subC2], utms := [utmC2] }

/-- An already-existing, fully built subregion row. -/
def subC3 : SubregionRow :=
  { region := "BC222222", utm := "17",
    res_2_vrt := some "a.vrt", res_2_ovr := some "a.vrt.ovr",
    res_4_vrt := none, res_4_ovr := none,
    res_8_vrt := none, res_8_ovr := none,
    complete_vrt := some "c.vrt", complete_ovr := some "c.vrt.ovr",
    built := 1 }

/-- An already-existing, built UTM row. -/
def utmC3 : UtmRow :=
  { utm := "17", utm_vrt := some "u.vrt", utm_ovr := some "u.vrt.ovr",
    built := 1 }

/-- A successfully downloaded and verified task for tile `T1` in that
subregion. -/
def taskC3 : DownloadTask :=
  { tile := "T1", subregion := "BC222222", utm := "17",
    geotiff_disk := some "BlueTopo/UTM17/T1.tiff",
    rat_disk := some "BlueTopo/UTM17/T1.tiff.aux.xml",
    geotiff_sha256_checksum := some "hg", rat_sha256_checksum := some "hr",
    raisesException := false, geotiff_present := true, rat_present := true,
    geotiff_hash := "hg", rat_hash := "hr" }

/-- Registry holding tile `T1` plus the pre-existing built subregion and UTM
rows. -/
def stC3 : Registry :=
  { tiles := [emptyTileRow "T1"], subregions := [subC3], utms := [utmC3] }

/-- A tracked tile with recorded artifacts, checksums and delivery date. -/
def dbC4 : TileRow :=
  { tilename := "T1",
    geotiff_link := some "lg", rat_link := some "lr",
    delivered_date := some "2024-01-01",
    resolution := some "4m", utm := some "17", subregion := some "BC222222",
    geotiff_disk := some "BlueTopo/UTM17/T1.tiff",
    rat_disk := some "BlueTopo/UTM17/T1.tiff.aux.xml",
    geotiff_sha256_checksum := some "oldg", rat_sha256_checksum := some "oldr",
    geotiff_verified := some "True", rat_verified := some "True" }

/-- The tile scheme now reports a strictly newer delivery with new
checksums. -/
def tsC4 : TsTile :=
  { tile := "T1", wkt := "POLYGON1",
    delivered_date := some "2024-06-01",
    geotiff_link := some "lg2", rat_link := some "lr2",
    resolution := some "4m", utm := some "17",
    geotiff_sha256_checksum := some "newg", rat_sha256_checksum := some "newr" }

/-- Registry for the upsert fixtures: one tracked tile, one built subregion,
one built UTM row. -/
def stC4 : Registry :=
  { tiles := [dbC4], subregions := [subC3], utms := [utmC3] }

/-- Filesystem for the upsert fixtures: both artifacts exist. -/
def fsC4 : FileSystem :=
  ["BlueTopo/UTM17/T1.tiff", "BlueTopo/UTM17/T1.tiff.aux.xml"]

/-- Spatial join fixture: every geometry intersects exactly one tileset
cell. -/
def regionsOfC4 : String → List String := fun _ => ["BC222222"]

/-- The registry produced by `upsert_tiles` on the C4 fixture: the tile row
rewritten with the new links, delivery date and checksums, its disk and
verified columns nulled; subregion and UTM rows untouched. -/
def stC4out : Registry :=
  { tiles := [{ tilename := "T1",
                geotiff_link := some "lg2", rat_link := some "lr2",
                delivered_date := some "2024-06-01",
                resolution := some "4m", utm := some "17",
                subregion := some "BC222222",
                geotiff_disk := none, rat_disk := none,
                geotiff_sha256_checksum := some "newg",
                rat_sha256_checksum := some "newr",
                geotiff_verified := none, rat_verified := none }],
    subregions := [subC3], utms := [utmC3] }

/-- A download task whose geotiff digest does not match the recorded
checksum. -/
def taskC5 : DownloadTask :=
  { tile := "T1", subregion := "BC222222", utm := "17",
    geotiff_disk := some "BlueTopo/UTM17/T1.tiff",
    rat_disk := some "BlueTopo/UTM17/T1.tiff.aux.xml",
    geotiff_sha256_checksum := some "expected", rat_sha256_checksum := some "hr",
    raisesException := false, geotiff_present := true, rat_present := true,
    geotiff_hash := "actual-different", rat_hash := "hr" }

/-- Registry for the checksum-integrity witness: the tile row is tracked and
unverified. -/
def stC5 : Registry :=
  { tiles := [emptyTileRow "T1"], subregions := [], utms := [] }

/-- Scheme tile whose `Delivered_Date` is non-null but empty (falsy in
Python). -/
def tileC10 : SchemeTile :=
  { tile := "T1", Delivered_Date := some "",
    GeoTIFF_Link := some "lg", RAT_Link := some "lr" }

/-- Scheme tile with all three fields truthy. -/
def tileC10b : SchemeTile :=
  { tile := "T2", Delivered_Date := some "2024-01-01",
    GeoTIFF_Link := some "lg", RAT_Link := some "lr" }

/-- The first cell generated by `global_region_tileset`. -/
def cellW : Cell := mkCell "S" (-1800) (-888) 0 0

/-- A subregion row in the freshly-upserted state: every descriptor NULL and
`built = 0`. -/
def blankSubDescriptors (r : SubregionRow) : Prop :=
  r.res_2_vrt = none ∧ r.res_2_ovr = none ∧ r.res_4_vrt = none ∧
  r.res_4_ovr = none ∧ r.res_8_vrt = none ∧ r.res_8_ovr = none ∧
  r.complete_vrt = none ∧ r.complete_ovr = none ∧ r.built = 0

/-- A UTM row in the freshly-upserted state. -/
def blankUtmDescriptors (u : UtmRow) : Prop :=
  u.utm_vrt = none ∧ u.utm_ovr = none ∧ u.built = 0

/-!
Generic list lemmas used throughout: establishing and preserving an
invariant along a left fold.
-/

theorem foldl_preserve {α β : Type} (step : β → α → β) (P : β → Prop) :
    ∀ (l : List α) (b : β), P b → (∀ b a, a ∈ l → P b → P (step b a)) →
      P (l.foldl step b) := by
  intro l
  induction l with
  | nil => intro b hb _; exact hb
  | cons a l ih =>
    intro b hb hstep
    exact ih (step b a) (hstep b a (List.mem_cons_self a l) hb)
      (fun b x hx => hstep b x (List.mem_cons_of_mem a hx))

theorem foldl_establish {α β : Type} (step : β → α → β) (P : β → Prop)
    (l : List α) (a : α) (ha : a ∈ l) (hest : ∀ b, P (step b a))
    (hpres : ∀ b x, x ∈ l → P b → P (step b x)) :
    ∀ b, P (l.foldl step b) := by
  induction l with
  | nil => cases ha
  | cons c l ih =>
    intro b
    rcases List.mem_cons.mp ha with rfl | ha2
    · exact foldl_preserve step P l (step b a) (hest b)
        (fun b x hx => hpres b x (List.mem_cons_of_mem a hx))
    · exact ih ha2 (fun b x hx => hpres b x (List.mem_cons_of_mem c hx)) _

/-!
Staleness sweep: characterization and claims C1, C2.
-/

theorem resetSubregionRow_idem (s : SubregionRow) :
    resetSubregionRow (resetSubregionRow s) = resetSubregionRow s := rfl

theorem resetSubregionRow_region (s : SubregionRow) :
    (resetSubregionRow s).region = s.region := rfl

theorem resetUtmRow_idem (u : UtmRow) :
    resetUtmRow (resetUtmRow u) = resetUtmRow u := rfl

theorem resetUtmRow_utm (u : UtmRow) : (resetUtmRow u).utm = u.utm := rfl

/-- Closed form of the `missing_subregions` loop: starting from any
accumulator, the fold nulls exactly the subregions whose region key is hit by
a flagged snapshot row, nulls exactly the UTM rows whose key is a flagged
row's `utm`, and adds the number of flagged rows to the counter. -/
theorem missingSubregionsStep_foldl (fs : FileSystem) (l : List SubregionRow) :
    ∀ (st : Registry) (n : Nat),
    l.foldl (missingSubregionsStep fs) (st, n) =
      ({ st with
          subregions := st.subregions.map fun r =>
            if (l.filter (subregionFilesMissing fs)).any
                (fun s => s.region == r.region) then resetSubregionRow r else r,
          utms := st.utms.map fun u =>
            if (l.filter (subregionFilesMissing fs)).any
                (fun s => s.utm == u.utm) then resetUtmRow u else u },
       n + (l.filter (subregionFilesMissing fs)).length) := by
  induction l with
  | nil =>
    intro st n
    simp
  | cons s l ih =>
    intro st n
    by_cases hm : subregionFilesMissing fs s
    case neg =>
      rw [List.foldl_cons]
      have hstep : missingSubregionsStep fs (st, n) s = (st, n) := by
        simp [missingSubregionsStep, hm]
      rw [hstep, ih st n]
      have hfilter : (s :: l).filter (subregionFilesMissing fs) =
          l.filter (subregionFilesMissing fs) := by
        simp [List.filter_cons, hm]
      rw [hfilter]
    case pos =>
      rw [List.foldl_cons]
      have hstep : missingSubregionsStep fs (st, n) s =
          ({ st with
              subregions := invalidateSubregion st.subregions s.region,
              utms := invalidateUtm st.utms s.utm }, n + 1) := by
        simp [missingSubregionsStep, hm]
      rw [hstep, ih]
      have hfilter : (s :: l).filter (subregionFilesMissing fs) =
          s :: l.filter (subregionFilesMissing fs) := by
        simp [List.filter_cons, hm]
      rw [hfilter]
      congr 1
      · congr 1
        · rw [invalidateSubregion, List.map_map]
          refine congrArg (fun f => st.subregions.map f) (funext fun r => ?_)
          by_cases hr : r.region = s.region
          · simp [Function.comp, hr, resetSubregionRow_idem,
              resetSubregionRow_region]
          · simp [Function.comp, hr, Ne.symm hr]
        · rw [invalidateUtm, List.map_map]
          refine congrArg (fun f => st.utms.map f) (funext fun u => ?_)
          by_cases hu : u.utm = s.utm
          · simp [Function.comp, hu, resetUtmRow_idem, resetUtmRow_utm]
          · simp [Function.comp, hu, Ne.symm hu]
      · simp [Nat.add_assoc, Nat.add_comm 1]

/-- Closed form of the `missing_utms` loop. -/
theorem missingUtmsStep_foldl (fs : FileSystem) (l : List UtmRow) :
    ∀ (st : Registry) (n : Nat),
    l.foldl (missingUtmsStep fs) (st, n) =
      ({ st with
          utms := st.utms.map fun u =>
            if (l.filter (utmFilesMissing fs)).any
                (fun w => w.utm == u.utm) then resetUtmRow u else u },
       n + (l.filter (utmFilesMissing fs)).length) := by
  induction l with
  | nil =>
    intro st n
    simp
  | cons w l ih =>
    intro st n
    by_cases hm : utmFilesMissing fs w
    case neg =>
      rw [List.foldl_cons]
      have hstep : missingUtmsStep fs (st, n) w = (st, n) := by
        simp [missingUtmsStep, hm]
      rw [hstep, ih st n]
      have hfilter : (w :: l).filter (utmFilesMissing fs) =
          l.filter (utmFilesMissing fs) := by
        simp [List.filter_cons, hm]
      rw [hfilter]
    case pos =>
      rw [List.foldl_cons]
      have hstep : missingUtmsStep fs (st, n) w =
          ({ st with utms := invalidateUtm st.utms w.utm }, n + 1) := by
        simp [missingUtmsStep, hm]
      rw [hstep, ih]
      have hfilter : (w :: l).filter (utmFilesMissing fs) =
          w :: l.filter (utmFilesMissing fs) := by
        simp [List.filter_cons, hm]
      rw [hfilter]
      congr 1
      · congr 1
        rw [invalidateUtm, List.map_map]
        refine congrArg (fun f => st.utms.map f) (funext fun u => ?_)
        by_cases hu : u.utm = w.utm
        · simp [Function.comp, hu, resetUtmRow_idem, resetUtmRow_utm]
        · simp [Function.comp, hu, Ne.symm hu]
      · simp [Nat.add_assoc, Nat.add_comm 1]

/-- `missing_utms` never touches the `vrt_subregion` table. -/
theorem missing_utms_subregions (fs : FileSystem) (st : Registry) :
    (missing_utms fs st).1.subregions = st.subregions := by
  rw [missing_utms, missingUtmsStep_foldl]

/-- After `missing_subregions`, every subregion row still flagged built has
all its files present. -/
theorem missing_subregions_post (fs : FileSystem) (st : Registry) :
    ∀ r ∈ (missing_subregions fs st).1.subregions,
      r.built == 1 → subregionFilesMissing fs r = false := by
  intro r hr hb
  rw [missing_subregions, missingSubregionsStep_foldl] at hr
  rcases List.mem_map.mp hr with ⟨r0, hr0, hfr⟩
  by_cases hc : ((st.subregions.filter fun s => s.built == 1).filter
      (subregionFilesMissing fs)).any (fun s => s.region == r0.region)
  · rw [if_pos hc] at hfr
    subst hfr
    simp [resetSubregionRow] at hb
  · rw [if_neg hc] at hfr
    subst hfr
    by_contra hm
    rw [Bool.not_eq_false] at hm
    apply hc
    refine List.any_eq_true.mpr ⟨r0, ?_, by simp⟩
    exact List.mem_filter.mpr ⟨List.mem_filter.mpr ⟨hr0, hb⟩, hm⟩

/-- After `missing_utms`, every UTM row still flagged built has all its
files present. -/
theorem missing_utms_post (fs : FileSystem) (st : Registry) :
    ∀ u ∈ (missing_utms fs st).1.utms,
      u.built == 1 → utmFilesMissing fs u = false := by
  intro u hu hb
  rw [missing_utms, missingUtmsStep_foldl] at hu
  rcases List.mem_map.mp hu with ⟨u0, hu0, hfu⟩
  by_cases hc : ((st.utms.filter fun w => w.built == 1).filter
      (utmFilesMissing fs)).any (fun w => w.utm == u0.utm)
  · rw [if_pos hc] at hfu
    subst hfu
    simp [resetUtmRow] at hb
  · rw [if_neg hc] at hfu
    subst hfu
    by_contra hm
    rw [Bool.not_eq_false] at hm
    apply hc
    refine List.any_eq_true.mpr ⟨u0, ?_, by simp⟩
    exact List.mem_filter.mpr ⟨List.mem_filter.mpr ⟨hu0, hb⟩, hm⟩

/-- `missing_subregions` does nothing when every built subregion row has all
its files present. -/
theorem missing_subregions_id (fs : FileSystem) (st : Registry)
    (h : ∀ s ∈ st.subregions, s.built == 1 → subregionFilesMissing fs s = false) :
    missing_subregions fs st = (st, 0) := by
  rw [missing_subregions, missingSubregionsStep_foldl]
  have hflag : (st.subregions.filter fun s => s.built == 1).filter
      (subregionFilesMissing fs) = [] := by
    refine List.filter_eq_nil_iff.mpr ?_
    intro a ha
    rcases List.mem_filter.mp ha with ⟨ha1, ha2⟩
    simp [h a ha1 ha2]
  rw [hflag]
  simp

/-- `missing_utms` does nothing when every built UTM row has all its files
present. -/
theorem missing_utms_id (fs : FileSystem) (st : Registry)
    (h : ∀ u ∈ st.utms, u.built == 1 → utmFilesMissing fs u = false) :
    missing_utms fs st = (st, 0) := by
  rw [missing_utms, missingUtmsStep_foldl]
  have hflag : (st.utms.filter fun u => u.built == 1).filter
      (utmFilesMissing fs) = [] := by
    refine List.filter_eq_nil_iff.mpr ?_
    intro a ha
    rcases List.mem_filter.mp ha with ⟨ha1, ha2⟩
    simp [h a ha1 ha2]
  rw [hflag]
  simp

/-- Claim C1: the staleness sweep is idempotent — with no filesystem change,
running `missing_subregions` followed by `missing_utms` a second time leaves
the registry exactly as the first run left it and reports zero invalidated
subregions and zero invalidated UTM zones. -/
theorem sweep_idempotent (fs : FileSystem) (st : Registry) :
    sweep fs (sweep fs st).1 = ((sweep fs st).1, 0, 0) := by
  have hok_sub : ∀ r ∈ (missing_utms fs (missing_subregions fs st).1).1.subregions,
      r.built == 1 → subregionFilesMissing fs r = false := by
    rw [missing_utms_subregions]
    exact missing_subregions_post fs st
  have hok_utm : ∀ u ∈ (missing_utms fs (missing_subregions fs st).1).1.utms,
      u.built == 1 → utmFilesMissing fs u = false :=
    missing_utms_post fs (missing_subregions fs st).1
  show sweep fs (missing_utms fs (missing_subregions fs st).1).1 =
    ((missing_utms fs (missing_subregions fs st).1).1, 0, 0)
  rw [sweep, missing_subregions_id _ _ hok_sub, missing_utms_id _ _ hok_utm]

/-- Claim C2: when a built subregion row has a missing (or null-required)
descriptor file, the sweep nulls all of that subregion's descriptors and its
built flag, and unconditionally nulls the owning UTM zone's descriptors and
built flag — with no condition at all on the UTM zone's own files. -/
theorem sweep_cascade (fs : FileSystem) (st : Registry) (s : SubregionRow)
    (u : UtmRow) (hs : s ∈ st.subregions) (hb : s.built = 1)
    (hm : subregionFilesMissing fs s = true)
    (hu : u ∈ st.utms) (huu : u.utm = s.utm) :
    (∃ r ∈ (sweep fs st).1.subregions, r.region = s.region ∧ r.built = 0 ∧
      r.res_2_vrt = none ∧ r.res_2_ovr = none ∧ r.res_4_vrt = none ∧
      r.res_4_ovr = none ∧ r.res_8_vrt = none ∧ r.res_8_ovr = none ∧
      r.complete_vrt = none ∧ r.complete_ovr = none) ∧
    (∃ w ∈ (sweep fs st).1.utms, w.utm = u.utm ∧ w.built = 0 ∧
      w.utm_vrt = none ∧ w.utm_ovr = none) := by
  have hflag : s ∈ (st.subregions.filter fun x => x.built == 1).filter
      (subregionFilesMissing fs) :=
    List.mem_filter.mpr ⟨List.mem_filter.mpr ⟨hs, by simp [hb]⟩, hm⟩
  have hsub : resetSubregionRow s ∈ (sweep fs st).1.subregions := by
    rw [show (sweep fs st).1 =
        (missing_utms fs (missing_subregions fs st).1).1 from rfl,
      missing_utms_subregions, missing_subregions, missingSubregionsStep_foldl]
    refine List.mem_map.mpr ⟨s, hs, ?_⟩
    have hc : ((st.subregions.filter fun x => x.built == 1).filter
        (subregionFilesMissing fs)).any (fun t => t.region == s.region) = true :=
      List.any_eq_true.mpr ⟨s, hflag, by simp⟩
    rw [if_pos hc]
  have hutm1 : resetUtmRow u ∈ (missing_subregions fs st).1.utms := by
    rw [missing_subregions, missingSubregionsStep_foldl]
    refine List.mem_map.mpr ⟨u, hu, ?_⟩
    have hc : ((st.subregions.filter fun x => x.built == 1).filter
        (subregionFilesMissing fs)).any (fun t => t.utm == u.utm) = true :=
      List.any_eq_true.mpr ⟨s, hflag, by simp [huu]⟩
    rw [if_pos hc]
  have hutm : resetUtmRow u ∈ (sweep fs st).1.utms := by
    rw [show (sweep fs st).1 =
        (missing_utms fs (missing_subregions fs st).1).1 from rfl,
      missing_utms, missingUtmsStep_foldl]
    refine List.mem_map.mpr ⟨resetUtmRow u, hutm1, ?_⟩
    rw [resetUtmRow_idem]
    exact ite_self _
  exact ⟨⟨resetSubregionRow s, hsub, rfl, rfl, rfl, rfl, rfl, rfl, rfl, rfl,
      rfl, rfl⟩,
    ⟨resetUtmRow u, hutm, rfl, rfl, rfl, rfl⟩⟩

/-- Witness for C2: a concrete registry in which the subregion `BC222222` is
built but its complete-VRT descriptor is null, while UTM zone 17's own files
are all present on disk; the sweep still unbuilds both rows. -/
theorem sweep_cascade_witness :
    utmFilesMissing fsC2 utmC2 = false ∧
    ((∃ r ∈ (sweep fsC2 stC2).1.subregions, r.region = subC2.region ∧
        r.built = 0 ∧
        r.res_2_vrt = none ∧ r.res_2_ovr = none ∧ r.res_4_vrt = none ∧
        r.res_4_ovr = none ∧ r.res_8_vrt = none ∧ r.res_8_ovr = none ∧
        r.complete_vrt = none ∧ r.complete_ovr = none) ∧
      (∃ w ∈ (sweep fsC2 stC2).1.utms, w.utm = utmC2.utm ∧ w.built = 0 ∧
        w.utm_vrt = none ∧ w.utm_ovr = none)) :=
  ⟨by decide,
    sweep_cascade fsC2 stC2 subC2 utmC2 (by decide) (by decide) (by decide)
      (by decide) (by decide)⟩

/-!
`update_records` upserts: claims C3 and C5.
-/

/-- One subregion upsert leaves the table with a row for its region, and
every row carrying that region blank and unbuilt. -/
theorem upsertSubregionRecord_establishes (tab : List SubregionRow)
    (reg utm : String) :
    (∃ r ∈ upsertSubregionRecord tab reg utm, r.region = reg) ∧
    (∀ r ∈ upsertSubregionRecord tab reg utm, r.region = reg →
      blankSubDescriptors r) := by
  rw [upsertSubregionRecord]
  by_cases hany : tab.any (fun r => r.region == reg) = true
  · rw [if_pos hany]
    rcases List.any_eq_true.mp hany with ⟨r0, hr0, hr0eq⟩
    rw [beq_iff_eq] at hr0eq
    constructor
    · refine ⟨_, List.mem_map_of_mem _ hr0, ?_⟩
      rw [if_pos hr0eq]
      exact hr0eq
    · intro r hr hreq
      rcases List.mem_map.mp hr with ⟨r1, _, himg⟩
      by_cases h1 : r1.region = reg
      · rw [if_pos h1] at himg
        subst himg
        exact ⟨rfl, rfl, rfl, rfl, rfl, rfl, rfl, rfl, rfl⟩
      · rw [if_neg h1] at himg
        subst himg
        exact absurd hreq h1
  · rw [if_neg hany]
    constructor
    · exact ⟨_, List.mem_append_right _ (List.mem_singleton.mpr rfl), rfl⟩
    · intro r hr hreq
      rcases List.mem_append.mp hr with h1 | h2
      · exact absurd (List.any_eq_true.mpr ⟨r, h1, by simp [hreq]⟩) hany
      · rw [List.mem_singleton.mp h2]
        exact ⟨rfl, rfl, rfl, rfl, rfl, rfl, rfl, rfl, rfl⟩

/-- A later subregion upsert (any key) keeps an established blank row for a
region blank. -/
theorem upsertSubregionRecord_preserves (tab : List SubregionRow)
    (reg reg2 utm2 : String)
    (h : (∃ r ∈ tab, r.region = reg) ∧
      (∀ r ∈ tab, r.region = reg → blankSubDescriptors r)) :
    (∃ r ∈ upsertSubregionRecord tab reg2 utm2, r.region = reg) ∧
    (∀ r ∈ upsertSubregionRecord tab reg2 utm2, r.region = reg →
      blankSubDescriptors r) := by
  obtain ⟨⟨r0, hr0, hr0reg⟩, hall⟩ := h
  rw [upsertSubregionRecord]
  by_cases hany : tab.any (fun r => r.region == reg2) = true
  · rw [if_pos hany]
    constructor
    · refine ⟨_, List.mem_map_of_mem _ hr0, ?_⟩
      by_cases h1 : r0.region = reg2
      · rw [if_pos h1]
        exact hr0reg
      · rw [if_neg h1]
        exact hr0reg
    · intro r hr hreq
      rcases List.mem_map.mp hr with ⟨r1, hr1, himg⟩
      by_cases h1 : r1.region = reg2
      · rw [if_pos h1] at himg
        subst himg
        exact ⟨rfl, rfl, rfl, rfl, rfl, rfl, rfl, rfl, rfl⟩
      · rw [if_neg h1] at himg
        subst himg
        exact hall _ hr1 hreq
  · rw [if_neg hany]
    constructor
    · exact ⟨r0, List.mem_append_left _ hr0, hr0reg⟩
    · intro r hr hreq
      rcases List.mem_append.mp hr with h1 | h2
      · exact hall r h1 hreq
      · rw [List.mem_singleton.mp h2]
        exact ⟨rfl, rfl, rfl, rfl, rfl, rfl, rfl, rfl, rfl⟩

/-- One UTM upsert leaves the table with a row for its key, and every row
carrying that key blank and unbuilt. -/
theorem upsertUtmRecord_establishes (tab : List UtmRow) (utm : String) :
    (∃ w ∈ upsertUtmRecord tab utm, w.utm = utm) ∧
    (∀ w ∈ upsertUtmRecord tab utm, w.utm = utm → blankUtmDescriptors w) := by
  rw [upsertUtmRecord]
  by_cases hany : tab.any (fun u => u.utm == utm) = true
  · rw [if_pos hany]
    rcases List.any_eq_true.mp hany with ⟨u0, hu0, hu0eq⟩
    rw [beq_iff_eq] at hu0eq
    constructor
    · refine ⟨_, List.mem_map_of_mem _ hu0, ?_⟩
      rw [if_pos hu0eq]
      exact hu0eq
    · intro w hw hweq
      rcases List.mem_map.mp hw with ⟨u1, _, himg⟩
      by_cases h1 : u1.utm = utm
      · rw [if_pos h1] at himg
        subst himg
        exact ⟨rfl, rfl, rfl⟩
      · rw [if_neg h1] at himg
        subst himg
        exact absurd hweq h1
  · rw [if_neg hany]
    constructor
    · exact ⟨_, List.mem_append_right _ (List.mem_singleton.mpr rfl), rfl⟩
    · intro w hw hweq
      rcases List.mem_append.mp hw with h1 | h2
      · exact absurd (List.any_eq_true.mpr ⟨w, h1, by simp [hweq]⟩) hany
      · rw [List.mem_singleton.mp h2]
        exact ⟨rfl, rfl, rfl⟩

/-- A later UTM upsert keeps an established blank row blank. -/
theorem upsertUtmRecord_preserves (tab : List UtmRow) (utm utm2 : String)
    (h : (∃ w ∈ tab, w.utm = utm) ∧
      (∀ w ∈ tab, w.utm = utm → blankUtmDescriptors w)) :
    (∃ w ∈ upsertUtmRecord tab utm2, w.utm = utm) ∧
    (∀ w ∈ upsertUtmRecord tab utm2, w.utm = utm → blankUtmDescriptors w) := by
  obtain ⟨⟨u0, hu0, hu0utm⟩, hall⟩ := h
  rw [upsertUtmRecord]
  by_cases hany : tab.any (fun u => u.utm == utm2) = true
  · rw [if_pos hany]
    constructor
    · refine ⟨_, List.mem_map_of_mem _ hu0, ?_⟩
      by_cases h1 : u0.utm = utm2
      · rw [if_pos h1]
        exact hu0utm
      · rw [if_neg h1]
        exact hu0utm
    · intro w hw hweq
      rcases List.mem_map.mp hw with ⟨u1, hu1, himg⟩
      by_cases h1 : u1.utm = utm2
      · rw [if_pos h1] at himg
        subst himg
        exact ⟨rfl, rfl, rfl⟩
      · rw [if_neg h1] at himg
        subst himg
        exact hall _ hu1 hweq
  · rw [if_neg hany]
    constructor
    · exact ⟨u0, List.mem_append_left _ hu0, hu0utm⟩
    · intro w hw hweq
      rcases List.mem_append.mp hw with h1 | h2
      · exact hall w h1 hweq
      · rw [List.mem_singleton.mp h2]
        exact ⟨rfl, rfl, rfl⟩

/-- Claim C3 counterexample: recording a verified download for tile `T1`
overwrites the already-existing built subregion row and built UTM row of its
region — the rows are not left unchanged as the claim states. -/
theorem update_records_changes_existing_rows :
    subC3 ∈ stC3.subregions ∧ subC3.built = 1 ∧
    utmC3 ∈ stC3.utms ∧ utmC3.built = 1 ∧
    (update_records stC3 [taskC3] ["T1"]).subregions ≠ stC3.subregions ∧
    (update_records stC3 [taskC3] ["T1"]).utms ≠ stC3.utms := by decide

/-- Claim C3 (amended): `update_records` upserts a subregion row for the
tile's region and a UTM row for its UTM code; when the row does not exist it
is inserted blank and unbuilt, and when it already exists it is overwritten —
all descriptors nulled and the built flag reset to 0 — rather than left
unchanged. -/
theorem update_records_upsert_resets (st : Registry)
    (dl : List DownloadTask) (succ : List String) (d : DownloadTask)
    (hd : d ∈ dl) (hsucc : d.tile ∈ succ) :
    ((∃ r ∈ (update_records st dl succ).subregions,
        r.region = d.subregion) ∧
      (∀ r ∈ (update_records st dl succ).subregions,
        r.region = d.subregion → blankSubDescriptors r)) ∧
    ((∃ w ∈ (update_records st dl succ).utms, w.utm = d.utm) ∧
      (∀ w ∈ (update_records st dl succ).utms,
        w.utm = d.utm → blankUtmDescriptors w)) := by
  have hdc : d ∈ dl.filter (fun x => succ.contains x.tile) :=
    List.mem_filter.mpr ⟨hd, List.elem_iff.mpr hsucc⟩
  have hne : ¬((dl.filter (fun x => succ.contains x.tile)).isEmpty = true) := by
    cases hcc : dl.filter (fun x => succ.contains x.tile) with
    | nil => rw [hcc] at hdc; cases hdc
    | cons a l => simp
  rw [update_records, if_neg hne]
  constructor
  · exact foldl_establish
      (fun tab x => upsertSubregionRecord tab x.subregion x.utm)
      (fun tab => (∃ r ∈ tab, r.region = d.subregion) ∧
        (∀ r ∈ tab, r.region = d.subregion → blankSubDescriptors r))
      _ d hdc
      (fun b => upsertSubregionRecord_establishes b d.subregion d.utm)
      (fun b x _ hb =>
        upsertSubregionRecord_preserves b d.subregion x.subregion x.utm hb)
      st.subregions
  · exact foldl_establish
      (fun tab x => upsertUtmRecord tab x.utm)
      (fun tab => (∃ w ∈ tab, w.utm = d.utm) ∧
        (∀ w ∈ tab, w.utm = d.utm → blankUtmDescriptors w))
      _ d hdc
      (fun b => upsertUtmRecord_establishes b d.utm)
      (fun b x _ hb => upsertUtmRecord_preserves b d.utm x.utm hb)
      st.utms

/-- Witness for the amended C3 at the concrete fixture. -/
theorem update_records_upsert_resets_witness :
    ((∃ r ∈ (update_records stC3 [taskC3] ["T1"]).subregions,
        r.region = taskC3.subregion) ∧
      (∀ r ∈ (update_records stC3 [taskC3] ["T1"]).subregions,
        r.region = taskC3.subregion → blankSubDescriptors r)) ∧
    ((∃ w ∈ (update_records stC3 [taskC3] ["T1"]).utms,
        w.utm = taskC3.utm) ∧
      (∀ w ∈ (update_records stC3 [taskC3] ["T1"]).utms,
        w.utm = taskC3.utm → blankUtmDescriptors w)) :=
  update_records_upsert_resets stC3 [taskC3] ["T1"] taskC3 (by decide)
    (by decide)

/-- The tile name in a pull result is the task's tile name. -/
theorem pull_Tile (d : DownloadTask) : (pull d).Tile = d.tile := by
  unfold pull
  split_ifs <;> rfl

/-- Claim C5: a tile is classified success iff nothing raised, both files
exist, and both computed digests equal the recorded checksums; a tile whose
digests mismatch is classified `incorrect hash`; and a tile not classified
success has its registry row left untouched by the single batched
`update_records` commit issued after the pool joins. -/
theorem pull_checksum_gate (st : Registry) (tasks : List DownloadTask)
    (hnd : (tasks.map fun t => t.tile).Nodup) (d : DownloadTask)
    (hd : d ∈ tasks) :
    ((pull d).Result = true ↔
      (d.raisesException = false ∧ d.geotiff_present = true ∧
       d.rat_present = true ∧
       d.geotiff_sha256_checksum = some d.geotiff_hash ∧
       d.rat_sha256_checksum = some d.rat_hash)) ∧
    ((d.raisesException = false ∧ d.geotiff_present = true ∧
      d.rat_present = true ∧
      (d.geotiff_sha256_checksum ≠ some d.geotiff_hash ∨
       d.rat_sha256_checksum ≠ some d.rat_hash)) →
      ((pull d).Result = false ∧ (pull d).Reason = "incorrect hash")) ∧
    ((pull d).Result = false →
      ∀ r ∈ st.tiles, r.tilename = d.tile →
        r ∈ (commitDownloads st tasks).1.tiles) := by
  refine ⟨?_, ?_, ?_⟩
  · unfold pull
    by_cases h1 : d.raisesException
    · simp [h1]
    · by_cases h2 : d.geotiff_present <;> by_cases h3 : d.rat_present <;>
        by_cases h4 : d.geotiff_sha256_checksum = some d.geotiff_hash <;>
        by_cases h5 : d.rat_sha256_checksum = some d.rat_hash <;>
        simp [h1, h2, h3, h4, h5]
  · rintro ⟨h1, h2, h3, h4⟩
    unfold pull
    rcases h4 with h4 | h4
    · simp [h1, h2, h3, h4]
    · simp [h1, h2, h3, h4]
  · intro hfail r hr hrname
    have hgen : ∀ succ : List String, d.tile ∉ succ →
        r ∈ (update_records st tasks succ).tiles := by
      intro succ hnot
      rw [update_records]
      by_cases hemp : (tasks.filter fun x => succ.contains x.tile).isEmpty = true
      · rw [if_pos hemp]
        exact hr
      · rw [if_neg hemp]
        refine foldl_preserve updateTilesArtifacts (fun tab => r ∈ tab) _
          st.tiles hr ?_
        intro tab c hc hmem
        rcases List.mem_filter.mp hc with ⟨_, hccont⟩
        have hcd : c.tile ≠ d.tile := by
          intro hh
          exact hnot (hh ▸ List.elem_iff.mp hccont)
        rw [updateTilesArtifacts]
        refine List.mem_map.mpr ⟨r, hmem, ?_⟩
        rw [if_neg fun hh => hcd (hh.symm.trans hrname)]
    have hdnot : ∀ p ∈ (tasks.map pull).filter (fun x => x.Result == true),
        p.Tile ≠ d.tile := by
      intro p hp hpt
      rcases List.mem_filter.mp hp with ⟨hpmem, hpres⟩
      rcases List.mem_map.mp hpmem with ⟨t, ht, hpt2⟩
      have htile : t.tile = d.tile := by rw [← pull_Tile t, hpt2, hpt]
      have hteq : t = d := List.inj_on_of_nodup_map hnd ht hd htile
      rw [hteq] at hpt2
      rw [← hpt2, hfail] at hpres
      simp at hpres
    simp only [commitDownloads]
    split_ifs with hlen
    · apply hgen
      intro hmem
      rcases List.mem_map.mp hmem with ⟨p, hp, hpt⟩
      exact hdnot p hp hpt
    · exact hr

/-!
`upsert_tiles`: claims C4 and C6.
-/

/-- Removing a file cannot create one. -/
theorem isfile_removeFile_mono (fs : FileSystem) (p q : String)
    (h : isfile (removeFile fs q) p = true) : isfile fs p = true := by
  simp [isfile, removeFile] at h ⊢
  exact h.1

/-- The removed file is gone. -/
theorem isfile_removeFile_self (fs : FileSystem) (p : String) :
    isfile (removeFile fs p) p = false := by
  simp [isfile, removeFile]

/-- `removeIfPresent` only removes files. -/
theorem removeIfPresent_mono (fs : FileSystem) (o : Option String)
    (p : String) (h : isfile (removeIfPresent fs o) p = true) :
    isfile fs p = true := by
  match o with
  | none => exact h
  | some q =>
    rw [removeIfPresent] at h
    by_cases hc : (!q.isEmpty && isfile fs q) = true
    · rw [if_pos hc] at h
      exact isfile_removeFile_mono fs p q h
    · rw [if_neg hc] at h
      exact h

/-- After `removeIfPresent` on a truthy recorded path, the file is absent. -/
theorem removeIfPresent_self (fs : FileSystem) (p : String)
    (hne : p.isEmpty = false) :
    isfile (removeIfPresent fs (some p)) p = false := by
  rw [removeIfPresent]
  by_cases hf : isfile fs p = true
  · rw [if_pos (by simp [hne, hf])]
    exact isfile_removeFile_self fs p
  · rw [Bool.not_eq_true] at hf
    rw [if_neg (by simp [hne, hf])]
    exact hf

/-- Characterization of one iteration of the `upsert_tiles` loop that ended
without raising: the filesystem only shrinks; a produced tuple comes from the
unique scheme feature of the tile, delivered and strictly newer, with exactly
one intersecting tileset cell; and conversely a qualifying tile yields its
tuple and has its truthy recorded artifacts removed from disk. -/
theorem processTile_spec (regionsOf : String → List String) (fs : FileSystem)
    (db : TileRow) (tsTiles : List TsTile) (fsA : FileSystem)
    (orec : Option InsertRec)
    (h : processTile regionsOf fs db tsTiles = .ok (fsA, orec)) :
    (∀ p, isfile fsA p = true → isfile fs p = true) ∧
    (∀ rec, orec = some rec → ∃ ts tsd,
        tsTiles.filter (fun t => t.tile == db.tilename) = [ts] ∧
        ts.delivered_date = some tsd ∧
        newerDelivery db.delivered_date tsd = true ∧
        (regionsOf ts.wkt).length = 1 ∧
        rec = mkInsertRec ts ((regionsOf ts.wkt).headD "")) ∧
    (∀ ts tsd,
        tsTiles.filter (fun t => t.tile == db.tilename) = [ts] →
        ts.delivered_date = some tsd →
        newerDelivery db.delivered_date tsd = true →
        ((regionsOf ts.wkt).length = 1 ∧
         orec = some (mkInsertRec ts ((regionsOf ts.wkt).headD "")) ∧
         (∀ p, db.geotiff_disk = some p → p.isEmpty = false →
            isfile fsA p = false) ∧
         (∀ p, db.rat_disk = some p → p.isEmpty = false →
            isfile fsA p = false))) := by
  rw [processTile] at h
  cases hcand : tsTiles.filter (fun t => t.tile == db.tilename) with
  | nil =>
    rw [hcand] at h
    simp only [Except.ok.injEq, Prod.mk.injEq] at h
    obtain ⟨rfl, rfl⟩ := h
    refine ⟨fun p hp => hp, ?_, ?_⟩
    · intro rec hrec
      cases hrec
    · intro ts tsd hts
      cases hts
  | cons ts0 rest =>
    rw [hcand] at h
    cases rest with
    | cons b l => simp at h
    | nil =>
      simp only [List.isEmpty_nil, if_true] at h
      cases hdel0 : ts0.delivered_date with
      | none =>
        rw [hdel0] at h
        simp only [Except.ok.injEq, Prod.mk.injEq] at h
        obtain ⟨rfl, rfl⟩ := h
        refine ⟨fun p hp => hp, ?_, ?_⟩
        · intro rec hrec
          cases hrec
        · intro ts tsd hts htsd
          cases hts
          rw [hdel0] at htsd
          cases htsd
      | some tsd0 =>
        cases hnew : newerDelivery db.delivered_date tsd0 with
        | false =>
          simp only [hdel0, hnew, Bool.false_eq_true, if_false,
            Except.ok.injEq, Prod.mk.injEq] at h
          obtain ⟨rfl, rfl⟩ := h
          refine ⟨fun p hp => hp, ?_, ?_⟩
          · intro rec hrec
            cases hrec
          · intro ts tsd hts htsd hn
            cases hts
            rw [hdel0] at htsd
            obtain rfl : tsd0 = tsd := by injection htsd
            rw [hnew] at hn
            cases hn
        | true =>
          cases hms : (regionsOf ts0.wkt).length == 1 with
          | false =>
            simp [hdel0, hnew, hms] at h
          | true =>
            simp only [hdel0, hnew, hms, if_true, Except.ok.injEq,
              Prod.mk.injEq] at h
            obtain ⟨rfl, rfl⟩ := h
            have hms1 : (regionsOf ts0.wkt).length = 1 := by
              simpa using hms
            refine ⟨?_, ?_, ?_⟩
            · intro p hp
              exact removeIfPresent_mono fs db.geotiff_disk p
                (removeIfPresent_mono _ db.rat_disk p hp)
            · intro rec hrec
              obtain rfl : mkInsertRec ts0 ((regionsOf ts0.wkt).headD "") = rec := by
                injection hrec
              exact ⟨ts0, tsd0, rfl, hdel0, hnew, hms1, rfl⟩
            · intro ts tsd hts htsd _
              cases hts
              refine ⟨hms1, rfl, ?_, ?_⟩
              · intro p hpdisk hpne
                rw [Bool.eq_false_iff]
                intro habs
                have h1 : isfile (removeIfPresent fs db.geotiff_disk) p = true :=
                  removeIfPresent_mono _ db.rat_disk p habs
                rw [hpdisk] at h1
                rw [removeIfPresent_self fs p hpne] at h1
                cases h1
              · intro p hpdisk hpne
                rw [hpdisk, Bool.eq_false_iff]
                intro habs
                rw [removeIfPresent_self _ p hpne] at habs
                cases habs

/-- Characterization of the whole `upsert_tiles` loop when it ends without
raising. -/
theorem collectInserts_spec (regionsOf : String → List String)
    (tsTiles : List TsTile) :
    ∀ (dbs : List TileRow) (fs fs1 : FileSystem) (recs : List InsertRec),
      collectInserts regionsOf fs dbs tsTiles = .ok (fs1, recs) →
      (∀ p, isfile fs1 p = true → isfile fs p = true) ∧
      (∀ rec ∈ recs, ∃ db ∈ dbs, ∃ ts tsd,
          tsTiles.filter (fun t => t.tile == db.tilename) = [ts] ∧
          ts.delivered_date = some tsd ∧
          newerDelivery db.delivered_date tsd = true ∧
          (regionsOf ts.wkt).length = 1 ∧
          rec = mkInsertRec ts ((regionsOf ts.wkt).headD "")) ∧
      (∀ db ∈ dbs, ∀ ts tsd,
          tsTiles.filter (fun t => t.tile == db.tilename) = [ts] →
          ts.delivered_date = some tsd →
          newerDelivery db.delivered_date tsd = true →
          ((regionsOf ts.wkt).length = 1 ∧
           mkInsertRec ts ((regionsOf ts.wkt).headD "") ∈ recs ∧
           (∀ p, db.geotiff_disk = some p → p.isEmpty = false →
              isfile fs1 p = false) ∧
           (∀ p, db.rat_disk = some p → p.isEmpty = false →
              isfile fs1 p = false))) := by
  intro dbs
  induction dbs with
  | nil =>
    intro fs fs1 recs h
    rw [collectInserts] at h
    simp only [Except.ok.injEq, Prod.mk.injEq] at h
    obtain ⟨rfl, rfl⟩ := h
    exact ⟨fun p hp => hp, by simp, by simp⟩
  | cons db rest ih =>
    intro fs fs1 recs h
    rw [collectInserts] at h
    cases hpt : processTile regionsOf fs db tsTiles with
    | error e => simp [hpt] at h
    | ok pair =>
      obtain ⟨fsA, orec⟩ := pair
      cases hci : collectInserts regionsOf fsA rest tsTiles with
      | error e => simp [hpt, hci] at h
      | ok pair2 =>
        obtain ⟨fsB, recsB⟩ := pair2
        simp only [hpt, hci, Except.ok.injEq, Prod.mk.injEq] at h
        obtain ⟨rfl, rfl⟩ := h
        obtain ⟨hmono1, hrec1, hqual1⟩ :=
          processTile_spec regionsOf fs db tsTiles fsA orec hpt
        obtain ⟨hmono2, hrec2, hqual2⟩ := ih fsA fsB recsB hci
        refine ⟨fun p hp => hmono1 p (hmono2 p hp), ?_, ?_⟩
        · intro rec hrec
          rcases List.mem_append.mp hrec with hl | hr
          · have hsome : orec = some rec := by
              cases orec with
              | none => cases hl
              | some r0 =>
                simp only [Option.toList, List.mem_singleton] at hl
                rw [hl]
            rcases hrec1 rec hsome with ⟨ts, tsd, h1, h2, h3, h4, h5⟩
            exact ⟨db, List.mem_cons_self db rest, ts, tsd, h1, h2, h3, h4, h5⟩
          · rcases hrec2 rec hr with ⟨db2, hdb2, ts, tsd, h1, h2, h3, h4, h5⟩
            exact ⟨db2, List.mem_cons_of_mem db hdb2, ts, tsd, h1, h2, h3, h4,
              h5⟩
        · intro db2 hdb2 ts tsd hts htsd hn
          rcases List.mem_cons.mp hdb2 with rfl | hdb2r
          · rcases hqual1 ts tsd hts htsd hn with ⟨hlen, horec, hgeo, hrat⟩
            refine ⟨hlen, ?_, ?_, ?_⟩
            · rw [horec]
              exact List.mem_append_left _ (List.mem_singleton.mpr rfl)
            · intro p hh hne
              rw [Bool.eq_false_iff]
              intro habs
              have hA := hmono2 p habs
              rw [hgeo p hh hne] at hA
              cases hA
            · intro p hh hne
              rw [Bool.eq_false_iff]
              intro habs
              have hA := hmono2 p habs
              rw [hrat p hh hne] at hA
              cases hA
          · rcases hqual2 db2 hdb2r ts tsd hts htsd hn with
              ⟨hlen, hmem, hgeo, hrat⟩
            exact ⟨hlen, List.mem_append_right _ hmem, hgeo, hrat⟩

/-- After upserting a tuple, every row carrying its tilename is exactly the
row the tuple dictates. -/
theorem upsertTileRowRec_establishes (tab : List TileRow) (rec : InsertRec) :
    ∀ r ∈ upsertTileRowRec tab rec, r.tilename = rec.tile →
      r = tileRowFromRec rec := by
  intro r hr hrt
  rw [upsertTileRowRec] at hr
  by_cases hany : tab.any (fun t => t.tilename == rec.tile) = true
  · rw [if_pos hany] at hr
    rcases List.mem_map.mp hr with ⟨r1, _, himg⟩
    by_cases h1 : r1.tilename = rec.tile
    · rw [if_pos h1] at himg
      subst himg
      have h2 : r1.tilename = rec.tile := hrt
      rw [h2]
      rfl
    · rw [if_neg h1] at himg
      subst himg
      exact absurd hrt h1
  · rw [if_neg hany] at hr
    rcases List.mem_append.mp hr with h1 | h2
    · exact absurd (List.any_eq_true.mpr ⟨r, h1, by simp [hrt]⟩) hany
    · exact List.mem_singleton.mp h2

/-- Upserting a tuple for a different tilename does not disturb rows already
in the tuple-dictated state for this tilename. -/
theorem upsertTileRowRec_preserves_updated (tab : List TileRow)
    (rec rec2 : InsertRec) (hne : rec2.tile ≠ rec.tile)
    (h : ∀ r ∈ tab, r.tilename = rec.tile → r = tileRowFromRec rec) :
    ∀ r ∈ upsertTileRowRec tab rec2, r.tilename = rec.tile →
      r = tileRowFromRec rec := by
  intro r hr hrt
  rw [upsertTileRowRec] at hr
  by_cases hany : tab.any (fun t => t.tilename == rec2.tile) = true
  · rw [if_pos hany] at hr
    rcases List.mem_map.mp hr with ⟨r1, hr1, himg⟩
    by_cases h1 : r1.tilename = rec2.tile
    · rw [if_pos h1] at himg
      subst himg
      have hh : r1.tilename = rec.tile := hrt
      exact absurd (h1.symm.trans hh) hne
    · rw [if_neg h1] at himg
      subst himg
      exact h _ hr1 hrt
  · rw [if_neg hany] at hr
    rcases List.mem_append.mp hr with h1 | h2
    · exact h r h1 hrt
    · rw [List.mem_singleton.mp h2] at hrt ⊢
      exact absurd hrt hne

/-- Upserting a tuple for a different tilename leaves an untouched row
untouched (and it stays the unique row of its tilename). -/
theorem upsertTileRowRec_preserves_row (tab : List TileRow)
    (rec2 : InsertRec) (db : TileRow) (hne : rec2.tile ≠ db.tilename)
    (h : db ∈ tab ∧ ∀ r ∈ tab, r.tilename = db.tilename → r = db) :
    db ∈ upsertTileRowRec tab rec2 ∧
    ∀ r ∈ upsertTileRowRec tab rec2, r.tilename = db.tilename → r = db := by
  obtain ⟨hmem, hall⟩ := h
  rw [upsertTileRowRec]
  by_cases hany : tab.any (fun t => t.tilename == rec2.tile) = true
  · rw [if_pos hany]
    constructor
    · refine List.mem_map.mpr ⟨db, hmem, ?_⟩
      rw [if_neg fun hh => hne hh.symm]
    · intro r hr hrt
      rcases List.mem_map.mp hr with ⟨r1, hr1, himg⟩
      by_cases h1 : r1.tilename = rec2.tile
      · rw [if_pos h1] at himg
        subst himg
        have hh : r1.tilename = db.tilename := hrt
        exact absurd (h1.symm.trans hh) hne
      · rw [if_neg h1] at himg
        subst himg
        exact hall _ hr1 hrt
  · rw [if_neg hany]
    constructor
    · exact List.mem_append_left _ hmem
    · intro r hr hrt
      rcases List.mem_append.mp hr with h1 | h2
      · exact hall r h1 hrt
      · rw [List.mem_singleton.mp h2] at hrt ⊢
        exact absurd hrt hne

/-- Full characterization of `upsert_tiles` for one tracked tile with a
unique scheme feature carrying a delivery date, under unique tilenames: the
dependency tables are untouched; when the delivery is strictly newer the
spatial join must have produced exactly one region, the tile row is rewritten
from the scheme tuple, and its truthy recorded artifacts are gone from disk;
when it is not newer the row is untouched. -/
theorem upsert_tiles_spec (regionsOf : String → List String) (st : Registry)
    (fs : FileSystem) (tsTiles : List TsTile) (st1 : Registry)
    (fs1 : FileSystem)
    (hnd : (st.tiles.map fun t => t.tilename).Nodup)
    (hok : upsert_tiles regionsOf st fs tsTiles = .ok (st1, fs1))
    (db : TileRow) (hdb : db ∈ st.tiles) (ts : TsTile) (tsd : String)
    (hts : tsTiles.filter (fun t => t.tile == db.tilename) = [ts])
    (hdel : ts.delivered_date = some tsd) :
    st1.subregions = st.subregions ∧ st1.utms = st.utms ∧
    (newerDelivery db.delivered_date tsd = true →
      ((regionsOf ts.wkt).length = 1 ∧
       (∀ r ∈ st1.tiles, r.tilename = db.tilename →
          r = tileRowFromRec (mkInsertRec ts ((regionsOf ts.wkt).headD ""))) ∧
       (∀ p, db.geotiff_disk = some p → p.isEmpty = false →
          isfile fs1 p = false) ∧
       (∀ p, db.rat_disk = some p → p.isEmpty = false →
          isfile fs1 p = false))) ∧
    (newerDelivery db.delivered_date tsd = false →
      ∀ r ∈ st1.tiles, r.tilename = db.tilename → r = db) := by
  have hts_mem : ts ∈ tsTiles.filter (fun t => t.tile == db.tilename) := by
    rw [hts]
    exact List.mem_singleton.mpr rfl
  have htile : ts.tile = db.tilename := by
    have := (List.mem_filter.mp hts_mem).2
    simpa using this
  rw [upsert_tiles] at hok
  cases hci : collectInserts regionsOf fs st.tiles tsTiles with
  | error e => simp [hci] at hok
  | ok pair =>
    obtain ⟨fsB, recs⟩ := pair
    simp only [hci, Except.ok.injEq, Prod.mk.injEq] at hok
    obtain ⟨rfl, rfl⟩ := hok.symm
    obtain ⟨hmono, hK1, hK2⟩ :=
      collectInserts_spec regionsOf tsTiles st.tiles fs fsB recs hci
    have hsrc : ∀ x ∈ recs, x.tile = db.tilename →
        ∃ tsd2, ts.delivered_date = some tsd2 ∧
          newerDelivery db.delivered_date tsd2 = true ∧
          x = mkInsertRec ts ((regionsOf ts.wkt).headD "") := by
      intro x hx hxt
      rcases hK1 x hx with ⟨db2, hdb2, ts2, tsd2, hts2, hdel2, hn2, _, hxeq⟩
      have htile2 : ts2.tile = db2.tilename := by
        have hm : ts2 ∈ tsTiles.filter (fun t => t.tile == db2.tilename) := by
          rw [hts2]
          exact List.mem_singleton.mpr rfl
        have := (List.mem_filter.mp hm).2
        simpa using this
      have hdbeq : db2.tilename = db.tilename := by
        rw [← htile2]
        rw [hxeq] at hxt
        exact hxt
      obtain rfl : db2 = db := List.inj_on_of_nodup_map hnd hdb2 hdb hdbeq
      rw [hts] at hts2
      cases hts2
      exact ⟨tsd2, hdel2, hn2, hxeq⟩
    refine ⟨rfl, rfl, ?_, ?_⟩
    · intro hnew
      obtain ⟨hlen, hmem, hgeo, hrat⟩ := hK2 db hdb ts tsd hts hdel hnew
      refine ⟨hlen, ?_, hgeo, hrat⟩
      have hrectile :
          (mkInsertRec ts ((regionsOf ts.wkt).headD "")).tile = db.tilename :=
        htile
      have huniq : ∀ x ∈ recs, x.tile = db.tilename →
          x = mkInsertRec ts ((regionsOf ts.wkt).headD "") := by
        intro x hx hxt
        rcases hsrc x hx hxt with ⟨tsd2, _, _, hxeq⟩
        exact hxeq
      have hfold := foldl_establish upsertTileRowRec
        (fun tab => ∀ r ∈ tab,
          r.tilename = (mkInsertRec ts ((regionsOf ts.wkt).headD "")).tile →
          r = tileRowFromRec (mkInsertRec ts ((regionsOf ts.wkt).headD "")))
        recs (mkInsertRec ts ((regionsOf ts.wkt).headD "")) hmem
        (fun b => upsertTileRowRec_establishes b _)
        (fun b x hx hP => by
          by_cases heq : x = mkInsertRec ts ((regionsOf ts.wkt).headD "")
          · subst heq
            exact upsertTileRowRec_establishes b _
          · exact upsertTileRowRec_preserves_updated b _ x
              (fun hh => heq (huniq x hx (hh.trans hrectile))) hP)
        st.tiles
      intro r hr hrt
      exact hfold r hr (hrt.trans hrectile.symm)
    · intro hnew
      have hnone : ∀ x ∈ recs, x.tile ≠ db.tilename := by
        intro x hx hxt
        rcases hsrc x hx hxt with ⟨tsd2, hdel2, hn2, _⟩
        rw [hdel] at hdel2
        obtain rfl : tsd = tsd2 := by injection hdel2
        rw [hnew] at hn2
        cases hn2
      have hfold := foldl_preserve upsertTileRowRec
        (fun tab => db ∈ tab ∧ ∀ r ∈ tab, r.tilename = db.tilename → r = db)
        recs st.tiles
        ⟨hdb, fun r hr hrt => List.inj_on_of_nodup_map hnd hr hdb hrt⟩
        (fun tab x hx hP =>
          upsertTileRowRec_preserves_row tab x db (hnone x hx) hP)
      exact hfold.2

/-!
`convert_base`: claim C8.
-/

/-- The first charset symbol decodes to 0. -/
theorem charIdx_head (cs : List Char) (h : 0 < cs.length) :
    charIdx cs (cs.getD 0 ' ') = 0 := by
  cases cs with
  | nil => cases h
  | cons a t => simp [charIdx]

/-- Over a duplicate-free charset, the symbol at index `i` decodes back to
`i`. -/
theorem charIdx_getD (cs : List Char) (hnd : cs.Nodup) :
    ∀ i, i < cs.length → charIdx cs (cs.getD i ' ') = i := by
  induction cs with
  | nil =>
    intro i hi
    cases hi
  | cons a t ih =>
    intro i hi
    cases i with
    | zero => simp [charIdx]
    | succ j =>
      have hj : j < t.length := by simpa using hi
      have hmem : t.getD j ' ' ∈ t := by
        rw [List.getD_eq_getElem t ' ' hj]
        exact List.getElem_mem hj
      have hne : a ≠ t.getD j ' ' := by
        intro hh
        exact (List.nodup_cons.mp hnd).1 (hh ▸ hmem)
      rw [show (a :: t).getD (j + 1) ' ' = t.getD j ' ' from rfl]
      rw [charIdx, if_neg hne, ih (List.nodup_cons.mp hnd).2 j hj]

/-- The division loop of `convert_base` is a little-endian base-`b`
expansion: decoding it recovers the input. -/
theorem digitsLE_val (cs : List Char) (h2 : 2 ≤ cs.length)
    (hnd : cs.Nodup) : ∀ n, valLE cs (digitsLE cs n) = n := by
  intro n
  induction n using Nat.strong_induction_on with
  | _ n ih =>
    rw [digitsLE]
    by_cases h0 : n = 0
    · rw [dif_pos (Or.inl h0), h0]
      rfl
    · rw [dif_neg (by push_neg; exact ⟨h0, by omega⟩)]
      rw [valLE]
      rw [ih (n / cs.length)
        (Nat.div_lt_self (Nat.pos_of_ne_zero h0) (by omega))]
      rw [charIdx_getD cs hnd (n % cs.length) (Nat.mod_lt n (by omega))]
      exact Nat.mod_add_div n cs.length

/-- Big-endian decoding of a reversed digit list equals little-endian
decoding. -/
theorem fromBE_reverse (cs : List Char) :
    ∀ l : List Char, fromBE cs l.reverse = valLE cs l := by
  intro l
  induction l with
  | nil => rfl
  | cons c rest ih =>
    rw [List.reverse_cons, fromBE, List.foldl_append, List.foldl_cons,
      List.foldl_nil]
    rw [show List.foldl (fun acc c => acc * cs.length + charIdx cs c) 0
        rest.reverse = fromBE cs rest.reverse from rfl, ih, valLE]
    rw [Nat.mul_comm]
    omega

/-- Left-padding with the zero symbol does not change the decoded value. -/
theorem fromBE_pad (cs : List Char) (hlen : 0 < cs.length) (l : List Char) :
    ∀ k, fromBE cs (List.replicate k (cs.getD 0 ' ') ++ l) = fromBE cs l := by
  intro k
  induction k with
  | zero => rfl
  | succ k ih =>
    rw [List.replicate_succ, List.cons_append, fromBE]
    simp only [List.foldl_cons]
    rw [show (0 : Nat) * cs.length + charIdx cs (cs.getD 0 ' ') = 0 by
      rw [charIdx_head cs hlen]; simp]
    exact ih

/-- A value below `b ^ k` needs at most `k` digits. -/
theorem digitsLE_length_le (cs : List Char) (h2 : 2 ≤ cs.length) :
    ∀ k n, n < cs.length ^ k → (digitsLE cs n).length ≤ k := by
  intro k
  induction k with
  | zero =>
    intro n hn
    rw [pow_zero] at hn
    have h0 : n = 0 := by omega
    subst h0
    rw [digitsLE, dif_pos (Or.inl rfl)]
    exact Nat.le_refl 0
  | succ k ih =>
    intro n hn
    by_cases h0 : n = 0
    · rw [digitsLE, dif_pos (Or.inl h0)]
      exact Nat.zero_le _
    · rw [digitsLE, dif_neg (by push_neg; exact ⟨h0, by omega⟩)]
      rw [List.length_cons]
      have hdiv : n / cs.length < cs.length ^ k := by
        rw [Nat.div_lt_iff_lt_mul (by omega : 0 < cs.length)]
        calc n < cs.length ^ (k + 1) := hn
        _ = cs.length ^ k * cs.length := by rw [pow_succ]
      exact Nat.succ_le_succ (ih (n / cs.length) hdiv)

/-- The division loop produces exactly Mathlib's little-endian base-`b`
digits, mapped through the charset. -/
theorem digitsLE_eq_digits (cs : List Char) (h2 : 2 ≤ cs.length) :
    ∀ n, digitsLE cs n =
      (Nat.digits cs.length n).map fun d => cs.getD d ' ' := by
  intro n
  induction n using Nat.strong_induction_on with
  | _ n ih =>
    by_cases h0 : n = 0
    · rw [digitsLE, dif_pos (Or.inl h0), h0, Nat.digits_zero]
      rfl
    · rw [digitsLE, dif_neg (by push_neg; exact ⟨h0, by omega⟩)]
      rw [Nat.digits_def' (by omega : 1 < cs.length)
        (Nat.pos_of_ne_zero h0), List.map_cons]
      rw [ih (n / cs.length)
        (Nat.div_lt_self (Nat.pos_of_ne_zero h0) (by omega))]

/-- `convert_base` output, in closed form: Mathlib's base-`b` digits of the
input, most significant first, rendered through the charset and left-padded
to the minimum width with the charset's first symbol. -/
theorem convert_base_data (cs : String) (n m : Nat)
    (h2 : 2 ≤ cs.data.length) :
    (convert_base cs n m).data =
      List.replicate
          (m - (if n = 0 then 1 else (Nat.digits cs.data.length n).length))
          (cs.data.getD 0 ' ') ++
        (if n = 0 then [cs.data.getD 0 ' ']
         else (Nat.digits cs.data.length n).reverse.map fun d =>
           cs.data.getD d ' ') := by
  rw [convert_base]
  rw [digitsLE_eq_digits cs.data h2 n]
  by_cases h0 : n = 0
  · subst h0
    simp
  · rw [if_neg h0, if_neg h0]
    have hdig : Nat.digits cs.data.length n ≠ [] := by
      rw [Ne, Nat.digits_eq_nil_iff_eq_zero]
      exact h0
    rw [← List.map_reverse]
    have hne : ((Nat.digits cs.data.length n).reverse.map fun d =>
        cs.data.getD d ' ') ≠ [] := by
      intro hh
      rw [List.map_eq_nil_iff, List.reverse_eq_nil_iff] at hh
      exact hdig hh
    rw [if_neg (by simpa using hne)]
    simp

/-- Decoding a `convert_base` output recovers the input. -/
theorem convert_base_fromBE (cs : String) (h2 : 2 ≤ cs.data.length)
    (hnd : cs.data.Nodup) (n m : Nat) :
    fromBE cs.data (convert_base cs n m).data = n := by
  rw [convert_base]
  by_cases hrev : (digitsLE cs.data n).reverse = []
  · rw [hrev]
    have hn0 : n = 0 := by
      by_contra h0
      rw [digitsLE, dif_neg (by push_neg; exact ⟨h0, by omega⟩)] at hrev
      simp at hrev
    show fromBE cs.data
      (List.replicate (m - 1) (cs.data.getD 0 ' ') ++ [cs.data.getD 0 ' ']) = n
    rw [fromBE_pad cs.data (by omega) _ (m - 1)]
    rw [hn0]
    show 0 * cs.data.length + charIdx cs.data (cs.data.getD 0 ' ') = 0
    rw [charIdx_head cs.data (by omega)]
    simp
  · rw [if_neg (by simpa using hrev)]
    show fromBE cs.data
      (List.replicate _ (cs.data.getD 0 ' ') ++ (digitsLE cs.data n).reverse) = n
    rw [fromBE_pad cs.data (by omega), fromBE_reverse,
      digitsLE_val cs.data h2 hnd]

/-- Claim C8 counterexample: over the non-empty charset `"aa"`, the distinct
integers 0 and 1 both render as the same length-1 string `"a"` — so the claim
as stated over every non-empty charset (and its `m = 0` padding clause,
`convert_base(cs, 0, 0) = "B" ≠ ""` over the real charset) fails. -/
theorem convert_base_not_injective_on_arbitrary_charset :
    ("aa" : String).data ≠ [] ∧ (0 : Nat) ≠ 1 ∧
    convert_base "aa" 0 1 = "a" ∧ convert_base "aa" 1 1 = "a" ∧
    convert_base charset20 0 0 = "B" := by
  refine ⟨by decide, by decide, ?_, ?_, ?_⟩
  · simp [convert_base, digitsLE]
  · rw [convert_base, digitsLE]
    norm_num
    rw [digitsLE]
    norm_num
  · rw [convert_base, digitsLE]
    norm_num
    decide

/-- Claim C8 (amended): for every charset of at least two pairwise-distinct
symbols, every `n`, and every minimum width `m ≥ 1`, `convert_base` returns
the base-`len(charset)` representation of `n` (Mathlib's `Nat.digits`, most
significant first) rendered with the charset symbols as digits, left-padded
to at least length `m` with the lowest-value symbol `charset[0]`; in
particular `convert_base cs 0 m` is `charset[0]` repeated `m` times, and the
encoding at a fixed width is injective. -/
theorem convert_base_correct (cs : String) (n m : Nat)
    (h2 : 2 ≤ cs.data.length) (hnd : cs.data.Nodup) (hm : 1 ≤ m) :
    m ≤ (convert_base cs n m).length ∧
    (convert_base cs n m).data =
      List.replicate
          (m - (if n = 0 then 1 else (Nat.digits cs.data.length n).length))
          (cs.data.getD 0 ' ') ++
        (if n = 0 then [cs.data.getD 0 ' ']
         else (Nat.digits cs.data.length n).reverse.map fun d =>
           cs.data.getD d ' ') ∧
    convert_base cs 0 m = ⟨List.replicate m (cs.data.getD 0 ' ')⟩ ∧
    (∀ n2, convert_base cs n2 m = convert_base cs n m → n2 = n) := by
  refine ⟨?_, convert_base_data cs n m h2, ?_, ?_⟩
  · rw [show (convert_base cs n m).length =
        (convert_base cs n m).data.length from rfl]
    rw [convert_base_data cs n m h2]
    rw [List.length_append, List.length_replicate]
    by_cases h0 : n = 0
    · rw [if_pos h0, if_pos h0]
      simp only [List.length_singleton]
      omega
    · rw [if_neg h0, if_neg h0]
      rw [List.length_map, List.length_reverse]
      omega
  · have hd := convert_base_data cs 0 m h2
    rw [if_pos rfl, if_pos rfl] at hd
    have hrep : List.replicate (m - 1) (cs.data.getD 0 ' ') ++
        [cs.data.getD 0 ' '] = List.replicate m (cs.data.getD 0 ' ') := by
      rw [← List.replicate_succ']
      rw [show m - 1 + 1 = m by omega]
    rw [hrep] at hd
    calc convert_base cs 0 m = ⟨(convert_base cs 0 m).data⟩ := rfl
      _ = ⟨List.replicate m (cs.data.getD 0 ' ')⟩ := by rw [hd]
  · intro n2 heq
    have h1 := convert_base_fromBE cs h2 hnd n2 m
    have h2b := convert_base_fromBE cs h2 hnd n m
    rw [heq] at h1
    rw [h2b] at h1
    exact h1.symm

/-- Witness for the amended C8 over the real 20-symbol charset at `n = 7`,
`m = 2`. -/
theorem convert_base_correct_witness :
    2 ≤ (convert_base charset20 7 2).length ∧
    (convert_base charset20 7 2).data =
      List.replicate
          (2 - (if 7 = 0 then 1 else
            (Nat.digits charset20.data.length 7).length))
          (charset20.data.getD 0 ' ') ++
        (if 7 = 0 then [charset20.data.getD 0 ' ']
         else (Nat.digits charset20.data.length 7).reverse.map fun d =>
           charset20.data.getD d ' ') ∧
    convert_base charset20 0 2 =
      ⟨List.replicate 2 (charset20.data.getD 0 ' ')⟩ ∧
    (∀ n2, convert_base charset20 n2 2 = convert_base charset20 7 2 →
      n2 = 7) :=
  convert_base_correct charset20 7 2 (by decide) (by decide) (by decide)

/-!
`global_region_tileset`: claims C7 and C9.
-/

/-- Invariant of the inner `while x < 180` loop: every generated cell
carries its row's latitude, hemisphere and Y counter; its `Region` is the
code of its counters; its `UTM_Zone` is computed from its own longitude; and
its longitude advances in lockstep with the X counter, staying below 180°. -/
theorem genRow_mem (ns : String) (yT : Int) (yc : Nat) :
    ∀ (xT : Int) (xc : Nat), ∀ c ∈ genRow ns yT yc xT xc,
      c.y = yT ∧ c.yCount = yc ∧ c.Hemisphere = ns ∧
      c.Region = regionCode c.xCount c.yCount ∧
      c.UTM_Zone = format02 (utmZoneVal c.x) ∧
      c.x = xT + 12 * ((c.xCount : Int) - (xc : Int)) ∧
      xc ≤ c.xCount ∧ c.x < 1800 := by
  intro xT xc
  induction xT, xc using genRow.induct ns yT yc with
  | case1 xT xc h ih =>
    intro c hc
    rw [genRow, dif_pos h] at hc
    rcases List.mem_cons.mp hc with rfl | hc2
    · refine ⟨rfl, rfl, rfl, rfl, rfl, ?_, Nat.le_refl xc, h⟩
      show xT = xT + 12 * ((xc : Int) - (xc : Int))
      omega
    · obtain ⟨h1, h2, h3, h4, h5, h6, h7, h8⟩ := ih c hc2
      exact ⟨h1, h2, h3, h4, h5, by omega, by omega, h8⟩
  | case2 xT xc h =>
    intro c hc
    rw [genRow, dif_neg h] at hc
    cases hc

/-- Within one row, the X counters strictly increase. -/
theorem genRow_pairwise (ns : String) (yT : Int) (yc : Nat) :
    ∀ (xT : Int) (xc : Nat),
      List.Pairwise (fun a b => a.xCount < b.xCount)
        (genRow ns yT yc xT xc) := by
  intro xT xc
  induction xT, xc using genRow.induct ns yT yc with
  | case1 xT xc h ih =>
    rw [genRow, dif_pos h]
    refine List.pairwise_cons.mpr ⟨?_, ih⟩
    intro b hb
    have := (genRow_mem ns yT yc (xT + 12) (xc + 1) b hb).2.2.2.2.2.2.1
    show xc < b.xCount
    omega
  | case2 xT xc h =>
    rw [genRow, dif_neg h]
    exact List.Pairwise.nil

/-- Invariant of the outer `while y <= 90` loop: every generated cell has
its longitude determined by its X counter within [-180°, 180°), `xCount`
below 300, its latitude determined by its Y counter and at most 90°, its
`Region` the code of its counters, its `UTM_Zone` computed from its
longitude, and its hemisphere by the sign of its latitude. -/
theorem genRows_mem : ∀ (yT : Int) (yc : Nat), ∀ c ∈ genRows yT yc,
    c.Region = regionCode c.xCount c.yCount ∧
    c.UTM_Zone = format02 (utmZoneVal c.x) ∧
    (-1800 : Int) ≤ c.x ∧ c.x < 1800 ∧
    c.x = -1800 + 12 * (c.xCount : Int) ∧
    c.xCount < 300 ∧
    c.y = yT + 12 * ((c.yCount : Int) - (yc : Int)) ∧
    yc ≤ c.yCount ∧ c.y ≤ 900 ∧
    (c.y ≤ 0 → c.Hemisphere = "S") ∧ (0 < c.y → c.Hemisphere = "N") := by
  intro yT yc
  induction yT, yc using genRows.induct with
  | case1 yT yc h ih =>
    intro c hc
    rw [genRows, dif_pos h] at hc
    rcases List.mem_append.mp hc with hrow | hrest
    · obtain ⟨h1, h2, h3, h4, h5, h6, h7, h8⟩ :=
        genRow_mem (if yT ≤ 0 then "S" else "N") yT yc (-1800) 0 c hrow
      refine ⟨h4, h5, by omega, h8, by omega, by omega, by omega,
        Nat.le_of_eq h2.symm, by omega, ?_, ?_⟩
      · intro hy0
        rw [h3, if_pos (by omega : yT ≤ 0)]
      · intro hy0
        rw [h3, if_neg (by omega : ¬yT ≤ 0)]
    · obtain ⟨h1, h2, h3, h4, h5, h6, h7, h8, h9, h10, h11⟩ := ih c hrest
      exact ⟨h1, h2, h3, h4, h5, h6, by omega, by omega, h9, h10, h11⟩
  | case2 yT yc h =>
    intro c hc
    rw [genRows, dif_neg h] at hc
    cases hc

/-- Across the whole tileset, cells are ordered by Y counter, then X
counter. -/
theorem genRows_pairwise : ∀ (yT : Int) (yc : Nat),
    List.Pairwise (fun a b => a.yCount < b.yCount ∨
      (a.yCount = b.yCount ∧ a.xCount < b.xCount)) (genRows yT yc) := by
  intro yT yc
  induction yT, yc using genRows.induct with
  | case1 yT yc h ih =>
    rw [genRows, dif_pos h]
    refine List.pairwise_append.mpr ⟨?_, ih, ?_⟩
    · refine List.Pairwise.imp_of_mem ?_
        (genRow_pairwise (if yT ≤ 0 then "S" else "N") yT yc (-1800) 0)
      intro a b ha hb hab
      have hay := (genRow_mem _ yT yc (-1800) 0 a ha).2.1
      have hby := (genRow_mem _ yT yc (-1800) 0 b hb).2.1
      exact Or.inr ⟨hay.trans hby.symm, hab⟩
    · intro a ha b hb
      have hay := (genRow_mem _ yT yc (-1800) 0 a ha).2.1
      have hby := (genRows_mem (yT + 12) (yc + 1) b hb).2.2.2.2.2.2.2.1
      exact Or.inl (by omega)
  | case2 yT yc h =>
    rw [genRows, dif_neg h]
    exact List.Pairwise.nil

/-- The rendered width of a counter below `b ^ m` is exactly the minimum
width. -/
theorem convert_base_data_length (cs : String) (h2 : 2 ≤ cs.data.length)
    (n m : Nat) (hm : 1 ≤ m) (hn : n < cs.data.length ^ m) :
    (convert_base cs n m).data.length = m := by
  rw [convert_base]
  have hdl := digitsLE_length_le cs.data h2 m n hn
  by_cases hrev : (digitsLE cs.data n).reverse = []
  · rw [hrev]
    show (List.replicate (m - 1) (cs.data.getD 0 ' ') ++
      [cs.data.getD 0 ' ']).length = m
    rw [List.length_append, List.length_replicate]
    simp only [List.length_singleton]
    omega
  · rw [if_neg (by simpa using hrev)]
    show (List.replicate _ (cs.data.getD 0 ' ') ++
      (digitsLE cs.data n).reverse).length = m
    rw [List.length_append, List.length_replicate, List.length_reverse]
    omega

/-- Region codes are injective on counters below `27 ^ 3`. -/
theorem regionCode_inj (xc yc xc2 yc2 : Nat) (b1 : xc < 19683)
    (b2 : yc < 19683) (b3 : xc2 < 19683) (b4 : yc2 < 19683)
    (heq : regionCode xc yc = regionCode xc2 yc2) :
    xc = xc2 ∧ yc = yc2 := by
  have h27 : charset27.data.length = 27 := by decide
  have hnd : charset27.data.Nodup := by decide
  have h2 : 2 ≤ charset27.data.length := by decide
  have hlen : ∀ k : Nat, k < 19683 →
      (convert_base charset27 k 3).data.length = 3 := by
    intro k hk
    refine convert_base_data_length charset27 h2 k 3 (by omega) ?_
    rw [h27]
    omega
  have hd := congrArg String.data heq
  rw [regionCode, regionCode, String.data_append, String.data_append,
    String.data_append, String.data_append] at hd
  obtain ⟨hpre, hy⟩ := List.append_inj hd (by
    rw [List.length_append, List.length_append, hlen xc b1, hlen xc2 b3])
  obtain ⟨_, hx⟩ := List.append_inj hpre rfl
  constructor
  · have d1 := convert_base_fromBE charset27 h2 hnd xc 3
    rw [hx, convert_base_fromBE charset27 h2 hnd xc2 3] at d1
    exact d1.symm
  · have d1 := convert_base_fromBE charset27 h2 hnd yc 3
    rw [hy, convert_base_fromBE charset27 h2 hnd yc2 3] at d1
    exact d1.symm

/-- Claim C7: the region code of a generated cell is a pure function of its
`(x, y)` grid counters (and the fixed tileset index), so regeneration with
the same arguments assigns identical codes to the same grid cell; and no two
cells of the generated tileset share a region code. -/
theorem global_region_tileset_unique_regions :
    (∀ c ∈ global_region_tileset, c.Region = regionCode c.xCount c.yCount) ∧
    (∀ c1 ∈ global_region_tileset, ∀ c2 ∈ global_region_tileset,
      c1.xCount = c2.xCount → c1.yCount = c2.yCount →
      c1.Region = c2.Region) ∧
    List.Pairwise (fun a b => a.Region ≠ b.Region) global_region_tileset := by
  refine ⟨fun c hc => (genRows_mem (-888) 0 c hc).1, ?_, ?_⟩
  · intro c1 h1 c2 h2 hx hy
    rw [(genRows_mem (-888) 0 c1 h1).1, (genRows_mem (-888) 0 c2 h2).1, hx,
      hy]
  · refine List.Pairwise.imp_of_mem ?_ (genRows_pairwise (-888) 0)
    intro a b ha hb hr heq
    obtain ⟨hrega, _, _, _, hxa, hxca, hya, _, hyla, _, _⟩ :=
      genRows_mem (-888) 0 a ha
    obtain ⟨hregb, _, _, _, hxb, hxcb, hyb, _, hylb, _, _⟩ :=
      genRows_mem (-888) 0 b hb
    rw [hrega, hregb] at heq
    obtain ⟨hx, hy⟩ := regionCode_inj a.xCount a.yCount b.xCount b.yCount
      (by omega) (by omega) (by omega) (by omega) heq
    rcases hr with h | ⟨h1, h2⟩
    · omega
    · omega

/-- The first cell of the tileset (west longitude -180°, north latitude
-88.8°). -/
theorem cellW_mem : cellW ∈ global_region_tileset := by
  rw [global_region_tileset, genRows]
  norm_num
  rw [genRow]
  norm_num
  exact Or.inl (Or.inl rfl)

/-- Witness for C7 at the first generated cell. -/
theorem global_region_tileset_unique_regions_witness :
    cellW.Region = regionCode cellW.xCount cellW.yCount :=
  global_region_tileset_unique_regions.1 cellW cellW_mem

/-- The UTM zone number of a generated longitude lies in `1..60`. -/
theorem utmZoneVal_bounds (xT : Int) (hlo : (-1800 : Int) ≤ xT)
    (hhi : xT < 1800) : 1 ≤ utmZoneVal xT ∧ utmZoneVal xT ≤ 60 := by
  have hx1 : ((-1800 : Int) : ℚ) ≤ (xT : ℚ) := by exact_mod_cast hlo
  have hx2 : (xT : ℚ) ≤ ((1799 : Int) : ℚ) := by
    have : xT ≤ 1799 := by omega
    exact_mod_cast this
  push_cast at hx1 hx2
  constructor
  · have hpos : (0 : Int) < utmZoneVal xT := by
      rw [utmZoneVal]
      rw [Int.ceil_pos]
      have h10 : (0 : ℚ) < 1 / 100000000 := by norm_num
      linarith
    omega
  · rw [utmZoneVal]
    rw [show (60 : Int) = ((60 : Int) : Int) from rfl]
    rw [Int.ceil_le]
    push_cast
    linarith

/-- Claim C9: every generated cell's `UTM_Zone` field is
`"{:02d}".format(ceil((180 + lon + 1e-8) / 6))` of its own west longitude,
that number lies between 1 and 60, and the `Hemisphere` field is `"N"` for
positive latitude and `"S"` otherwise — including latitude exactly 0. -/
theorem global_region_tileset_utm_hemisphere (c : Cell)
    (hc : c ∈ global_region_tileset) :
    c.UTM_Zone = format02 (utmZoneVal c.x) ∧
    1 ≤ utmZoneVal c.x ∧ utmZoneVal c.x ≤ 60 ∧
    (0 < c.y → c.Hemisphere = "N") ∧ (c.y ≤ 0 → c.Hemisphere = "S") := by
  obtain ⟨_, hutm, hlo, hhi, _, _, _, _, _, hsouth, hnorth⟩ :=
    genRows_mem (-888) 0 c hc
  obtain ⟨hb1, hb2⟩ := utmZoneVal_bounds c.x hlo hhi
  exact ⟨hutm, hb1, hb2, hnorth, hsouth⟩

/-- Witness for C9 at the first generated cell (latitude -88.8°: southern
hemisphere, UTM zone 1). -/
theorem global_region_tileset_utm_hemisphere_witness :
    cellW.UTM_Zone = format02 (utmZoneVal cellW.x) ∧
    1 ≤ utmZoneVal cellW.x ∧ utmZoneVal cellW.x ≤ 60 ∧
    (0 < cellW.y → cellW.Hemisphere = "N") ∧
    (cellW.y ≤ 0 → cellW.Hemisphere = "S") :=
  global_region_tileset_utm_hemisphere cellW cellW_mem

/-!
`insert_new`: claim C10.
-/

/-- The `INSERT ... ON CONFLICT DO NOTHING` fold of `insert_new` only appends
rows; every appended row is a blank row for a tilename coming from the
processed list that was not present when it was inserted. -/
theorem insert_new_fold_append (l : List SchemeTile) :
    ∀ tab : List TileRow, ∃ ext,
      l.foldl (fun tab t =>
        if tab.any (fun r => r.tilename == t.tile) then tab
        else tab ++ [emptyTileRow t.tile]) tab = tab ++ ext ∧
      ∀ r ∈ ext, (∃ t ∈ l, t.tile = r.tilename) ∧
        r = emptyTileRow r.tilename ∧ ∀ r0 ∈ tab, r0.tilename ≠ r.tilename := by
  induction l with
  | nil =>
    intro tab
    exact ⟨[], by simp, by simp⟩
  | cons t l ih =>
    intro tab
    rw [List.foldl_cons]
    by_cases hany : tab.any (fun r => r.tilename == t.tile) = true
    · rw [if_pos hany]
      obtain ⟨ext, hfold, hprops⟩ := ih tab
      refine ⟨ext, hfold, ?_⟩
      intro r hr
      obtain ⟨⟨t2, ht2, ht2e⟩, hblank, hnotin⟩ := hprops r hr
      exact ⟨⟨t2, List.mem_cons_of_mem t ht2, ht2e⟩, hblank, hnotin⟩
    · rw [if_neg hany]
      obtain ⟨ext, hfold, hprops⟩ := ih (tab ++ [emptyTileRow t.tile])
      refine ⟨emptyTileRow t.tile :: ext, ?_, ?_⟩
      · rw [hfold, List.append_assoc]
        rfl
      · intro r hr
        rcases List.mem_cons.mp hr with rfl | hr2
        · refine ⟨⟨t, List.mem_cons_self t l, rfl⟩, rfl, ?_⟩
          intro r0 hr0 hr0e
          exact hany (List.any_eq_true.mpr ⟨r0, hr0, by simp [hr0e, emptyTileRow]⟩)
        · obtain ⟨⟨t2, ht2, ht2e⟩, hblank, hnotin⟩ := hprops r hr2
          exact ⟨⟨t2, List.mem_cons_of_mem t ht2, ht2e⟩, hblank,
            fun r0 hr0 => hnotin r0 (List.mem_append_left _ hr0)⟩

/-- After the `insert_new` fold, every processed tilename is present. -/
theorem insert_new_fold_present (l : List SchemeTile) (tab : List TileRow)
    (t : SchemeTile) (ht : t ∈ l) :
    (l.foldl (fun tab t =>
      if tab.any (fun r => r.tilename == t.tile) then tab
      else tab ++ [emptyTileRow t.tile]) tab).any
        (fun r => r.tilename == t.tile) = true := by
  refine foldl_establish _
    (fun tab => tab.any (fun r => r.tilename == t.tile) = true) l t ht ?_ ?_
    tab
  · intro b
    by_cases hany : b.any (fun r => r.tilename == t.tile) = true
    · rw [if_pos hany]
      exact hany
    · rw [if_neg hany]
      refine List.any_eq_true.mpr ⟨emptyTileRow t.tile, ?_, by simp [emptyTileRow]⟩
      exact List.mem_append_right _ (List.mem_singleton.mpr rfl)
  · intro b x _ hb
    by_cases hany : b.any (fun r => r.tilename == x.tile) = true
    · rw [if_pos hany]
      exact hb
    · rw [if_neg hany]
      rcases List.any_eq_true.mp hb with ⟨r0, hr0, hr0e⟩
      exact List.any_eq_true.mpr ⟨r0, List.mem_append_left _ hr0, hr0e⟩

/-- Claim C10 counterexample: a scheme tile whose `Delivered_Date`,
`GeoTIFF_Link` and `RAT_Link` are all non-null, but whose delivered date is
the empty string, is neither inserted nor counted — the code tests Python
truthiness, not non-nullness. -/
theorem insert_new_requires_truthy :
    tileC10.Delivered_Date.isSome = true ∧
    tileC10.GeoTIFF_Link.isSome = true ∧
    tileC10.RAT_Link.isSome = true ∧
    insert_new [] [tileC10] = ([], 0) := by decide

/-- Claim C10 (amended): `insert_new` inserts a tilename-only row exactly for
those input tiles whose `Delivered_Date`, `GeoTIFF_Link` and `RAT_Link` are
all truthy (non-null and non-empty), never modifies an already-existing tile
row, and returns the count of all truthy input tiles — including those that
were already tracked — so the returned available count is not the number of
newly inserted rows. -/
theorem insert_new_spec (tab : List TileRow) (tiles : List SchemeTile) :
    (insert_new tab tiles).2 = (tiles.filter fun t =>
      truthy t.Delivered_Date && truthy t.GeoTIFF_Link &&
        truthy t.RAT_Link).length ∧
    ∃ ext, (insert_new tab tiles).1 = tab ++ ext ∧
      (∀ r ∈ ext, (∃ t ∈ tiles,
          (truthy t.Delivered_Date && truthy t.GeoTIFF_Link &&
            truthy t.RAT_Link) = true ∧ t.tile = r.tilename) ∧
        r = emptyTileRow r.tilename ∧
        ∀ r0 ∈ tab, r0.tilename ≠ r.tilename) ∧
      (∀ t ∈ tiles,
        (truthy t.Delivered_Date && truthy t.GeoTIFF_Link &&
          truthy t.RAT_Link) = true →
        (insert_new tab tiles).1.any (fun r => r.tilename == t.tile) = true) := by
  refine ⟨rfl, ?_⟩
  obtain ⟨ext, hfold, hprops⟩ := insert_new_fold_append
    (tiles.filter fun t =>
      truthy t.Delivered_Date && truthy t.GeoTIFF_Link && truthy t.RAT_Link)
    tab
  refine ⟨ext, hfold, ?_, ?_⟩
  · intro r hr
    obtain ⟨⟨t2, ht2, ht2e⟩, hblank, hnotin⟩ := hprops r hr
    rcases List.mem_filter.mp ht2 with ⟨ht2mem, ht2pred⟩
    exact ⟨⟨t2, ht2mem, ht2pred, ht2e⟩, hblank, hnotin⟩
  · intro t ht hpred
    exact insert_new_fold_present _ tab t (List.mem_filter.mpr ⟨ht, hpred⟩)

/-- Claim C4 counterexample: after `upsert_tiles` sees a strictly newer
delivery for tile `T1`, the tile row's checksum columns are not nulled — they
hold the tile scheme's new checksums (`oldg` became `newg`, not NULL). -/
theorem upsert_tiles_overwrites_checksums :
    dbC4.delivered_date = some "2024-01-01" ∧
    tsC4.delivered_date = some "2024-06-01" ∧
    dbC4.geotiff_sha256_checksum = some "oldg" ∧
    upsert_tiles regionsOfC4 stC4 fsC4 [tsC4] = .ok (stC4out, []) ∧
    stC4out.tiles.map (fun r => r.geotiff_sha256_checksum) = [some "newg"] ∧
    stC4out.tiles.map (fun r => r.rat_sha256_checksum) = [some "newr"] := by
  decide

/-- Claim C4 (amended): for a tracked tile whose unique scheme feature
reports a strictly newer delivery (or whose recorded date is null),
`upsert_tiles` deletes the tile's truthy on-disk artifacts, nulls the disk
and verified columns of its row, and overwrites — not nulls — the checksum
columns with the scheme's new checksums; subregion and UTM built flags are
untouched, and a tile that is not newer keeps its disk and verified columns
unchanged. -/
theorem upsert_tiles_invalidates (regionsOf : String → List String)
    (st : Registry) (fs : FileSystem) (tsTiles : List TsTile) (st1 : Registry)
    (fs1 : FileSystem)
    (hnd : (st.tiles.map fun t => t.tilename).Nodup)
    (hok : upsert_tiles regionsOf st fs tsTiles = .ok (st1, fs1))
    (db : TileRow) (hdb : db ∈ st.tiles) (ts : TsTile) (tsd : String)
    (hts : tsTiles.filter (fun t => t.tile == db.tilename) = [ts])
    (hdel : ts.delivered_date = some tsd) :
    st1.subregions = st.subregions ∧ st1.utms = st.utms ∧
    (newerDelivery db.delivered_date tsd = true →
      ((∀ r ∈ st1.tiles, r.tilename = db.tilename →
          r.geotiff_disk = none ∧ r.rat_disk = none ∧
          r.geotiff_verified = none ∧ r.rat_verified = none ∧
          r.geotiff_sha256_checksum = ts.geotiff_sha256_checksum ∧
          r.rat_sha256_checksum = ts.rat_sha256_checksum) ∧
       (∀ p, db.geotiff_disk = some p → p.isEmpty = false →
          isfile fs1 p = false) ∧
       (∀ p, db.rat_disk = some p → p.isEmpty = false →
          isfile fs1 p = false))) ∧
    (newerDelivery db.delivered_date tsd = false →
      ∀ r ∈ st1.tiles, r.tilename = db.tilename →
        r.geotiff_disk = db.geotiff_disk ∧ r.rat_disk = db.rat_disk ∧
        r.geotiff_verified = db.geotiff_verified ∧
        r.rat_verified = db.rat_verified) := by
  obtain ⟨h1, h2, h3, h4⟩ :=
    upsert_tiles_spec regionsOf st fs tsTiles st1 fs1 hnd hok db hdb ts tsd
      hts hdel
  refine ⟨h1, h2, ?_, ?_⟩
  · intro hnew
    obtain ⟨hlen, hrow, hgeo, hrat⟩ := h3 hnew
    refine ⟨?_, hgeo, hrat⟩
    intro r hr hrt
    rw [hrow r hr hrt]
    exact ⟨rfl, rfl, rfl, rfl, rfl, rfl⟩
  · intro hnew r hr hrt
    rw [h4 hnew r hr hrt]
    exact ⟨rfl, rfl, rfl, rfl⟩

/-- Witness for the amended C4 at the concrete fixture (newer delivery). -/
theorem upsert_tiles_invalidates_witness :
    stC4out.subregions = stC4.subregions ∧ stC4out.utms = stC4.utms ∧
    (newerDelivery dbC4.delivered_date "2024-06-01" = true →
      ((∀ r ∈ stC4out.tiles, r.tilename = dbC4.tilename →
          r.geotiff_disk = none ∧ r.rat_disk = none ∧
          r.geotiff_verified = none ∧ r.rat_verified = none ∧
          r.geotiff_sha256_checksum = tsC4.geotiff_sha256_checksum ∧
          r.rat_sha256_checksum = tsC4.rat_sha256_checksum) ∧
       (∀ p, dbC4.geotiff_disk = some p → p.isEmpty = false →
          isfile [] p = false) ∧
       (∀ p, dbC4.rat_disk = some p → p.isEmpty = false →
          isfile [] p = false))) ∧
    (newerDelivery dbC4.delivered_date "2024-06-01" = false →
      ∀ r ∈ stC4out.tiles, r.tilename = dbC4.tilename →
        r.geotiff_disk = dbC4.geotiff_disk ∧ r.rat_disk = dbC4.rat_disk ∧
        r.geotiff_verified = dbC4.geotiff_verified ∧
        r.rat_verified = dbC4.rat_verified) :=
  upsert_tiles_invalidates regionsOfC4 stC4 fsC4 [tsC4] stC4out []
    (by decide) (by decide) dbC4 (by decide) tsC4 "2024-06-01" (by decide)
    (by decide)

/-- Claim C6: in a run of `upsert_tiles` that did not abort, every tile that
reached region assignment had exactly one tileset cell intersecting its
scheme geometry (zero or several raise a `ValueError` and the run returns no
registry), and the region recorded in the tile's row is that unique cell's
code. -/
theorem upsert_tiles_unique_region (regionsOf : String → List String)
    (st : Registry) (fs : FileSystem) (tsTiles : List TsTile) (st1 : Registry)
    (fs1 : FileSystem)
    (hnd : (st.tiles.map fun t => t.tilename).Nodup)
    (hok : upsert_tiles regionsOf st fs tsTiles = .ok (st1, fs1))
    (db : TileRow) (hdb : db ∈ st.tiles) (ts : TsTile) (tsd : String)
    (hts : tsTiles.filter (fun t => t.tile == db.tilename) = [ts])
    (hdel : ts.delivered_date = some tsd)
    (hnew : newerDelivery db.delivered_date tsd = true) :
    (regionsOf ts.wkt).length = 1 ∧
    ∀ r ∈ st1.tiles, r.tilename = db.tilename →
      r.subregion = some ((regionsOf ts.wkt).headD "") := by
  obtain ⟨_, _, h3, _⟩ :=
    upsert_tiles_spec regionsOf st fs tsTiles st1 fs1 hnd hok db hdb ts tsd
      hts hdel
  obtain ⟨hlen, hrow, _, _⟩ := h3 hnew
  refine ⟨hlen, ?_⟩
  intro r hr hrt
  rw [hrow r hr hrt]
  rfl

/-- Witness for C6 at the concrete fixture: the spatial join returns exactly
one region and the tile row records it. -/
theorem upsert_tiles_unique_region_witness :
    (regionsOfC4 tsC4.wkt).length = 1 ∧
    ∀ r ∈ stC4out.tiles, r.tilename = dbC4.tilename →
      r.subregion = some ((regionsOfC4 tsC4.wkt).headD "") :=
  upsert_tiles_unique_region regionsOfC4 stC4 fsC4 [tsC4] stC4out []
    (by decide) (by decide) dbC4 (by decide) tsC4 "2024-06-01" (by decide)
    (by decide) (by decide)

/-- Witness for C5: a concrete task whose geotiff digest differs from the
recorded checksum; it is classified `incorrect hash` and its registry row is
untouched by the commit. -/
theorem pull_checksum_gate_witness :
    taskC5.geotiff_sha256_checksum ≠ some taskC5.geotiff_hash ∧
    (((pull taskC5).Result = true ↔
      (taskC5.raisesException = false ∧ taskC5.geotiff_present = true ∧
       taskC5.rat_present = true ∧
       taskC5.geotiff_sha256_checksum = some taskC5.geotiff_hash ∧
       taskC5.rat_sha256_checksum = some taskC5.rat_hash)) ∧
    ((taskC5.raisesException = false ∧ taskC5.geotiff_present = true ∧
      taskC5.rat_present = true ∧
      (taskC5.geotiff_sha256_checksum ≠ some taskC5.geotiff_hash ∨
       taskC5.rat_sha256_checksum ≠ some taskC5.rat_hash)) →
      ((pull taskC5).Result = false ∧
        (pull taskC5).Reason = "incorrect hash")) ∧
    ((pull taskC5).Result = false →
      ∀ r ∈ stC5.tiles, r.tilename = taskC5.tile →
        r ∈ (commitDownloads stC5 [taskC5]).1.tiles)) :=
  ⟨by decide, pull_checksum_gate stC5 [taskC5] (by decide) taskC5 (by decide)⟩

end BlueTopo
